import Mathlib

/-!
Shallow embedding of `install.py` (qingchengliu/risk-claude), the JSON-driven
modular installer.  Paths are modelled as lists of name components (absolute,
already resolved: `expanduser`/`resolve` become the identity, `/`-joining
becomes list append).  The filesystem is a finite association map from paths
to entries; JSON documents are an inductive value type (Python dicts become
ordered association lists, preserving insertion order exactly as CPython
does).  External effects (subprocess runs, OS-level removal/copy errors,
wall-clock timestamps, the inherited process environment, `sys.platform`)
are supplied by an `Oracle` record of pure functions.
-/

namespace Install

/-- A filesystem path: absolute, as its list of name components. -/
abbrev Path := List String

/-- Render a path (used only inside log / error message strings). -/
def pathStr (p : Path) : String := String.intercalate "/" p

/-! Python string primitives used by the source (`str.strip`, `str.lower`,
`str.split`, `str.replace`), modelled by structurally recursive functions
over the character list so that concrete runs evaluate inside the kernel.
`lowerChar` covers the ASCII range, which is all the source compares
(`"all"`, `"bash install.sh"`). -/

/-- The whitespace set of Python `str.strip()`. -/
def isPySpace (c : Char) : Bool :=
  c == ' ' || c == '\t' || c == '\n' || c == '\r' || c == '\x0b' || c == '\x0c'

/-- Python `str.strip()`. -/
def stripStr (s : String) : String :=
  ⟨((s.data.dropWhile isPySpace).reverse.dropWhile isPySpace).reverse⟩

/-- ASCII lower-casing of one character. -/
def lowerChar (c : Char) : Char :=
  if 'A' ≤ c && c ≤ 'Z' then Char.ofNat (c.toNat + 32) else c

/-- Python `str.lower()` on ASCII text. -/
def lowerAscii (s : String) : String := ⟨s.data.map lowerChar⟩

/-- Python `str.split(sep)` for a one-character separator: splitting the
empty string yields `[""]`, and separators at the ends yield empty parts. -/
def splitOnChar (sep : Char) : List Char → List (List Char)
  | [] => [[]]
  | c :: rest =>
    match splitOnChar sep rest with
    | [] => [[]]
    | h :: t => if c == sep then [] :: h :: t else (c :: h) :: t

/-- Python `str.split(sep)` as a `String` operation. -/
def splitStr (sep : Char) (s : String) : List String :=
  (splitOnChar sep s.data).map String.mk

/-- Non-overlapping left-to-right replacement, fuelled by the input length
(the fuel never runs out for a non-empty pattern; the empty pattern, which
the source never passes, is left untouched). -/
def replaceAux (pat subst : List Char) : Nat → List Char → List Char
  | _, [] => []
  | 0, s => s
  | fuel + 1, c :: rest =>
    if pat ≠ [] && pat.isPrefixOf (c :: rest) then
      subst ++ replaceAux pat subst fuel ((c :: rest).drop pat.length)
    else c :: replaceAux pat subst fuel rest

/-- Python `str.replace(pat, subst)`. -/
def replaceAll (s pat subst : String) : String :=
  ⟨replaceAux pat.data subst.data s.data.length s.data⟩

/-- Association-map lookup (first binding wins), the model of Python dict
reads and of filesystem lookups. -/
def getMap {α β : Type} [DecidableEq α] : List (α × β) → α → Option β
  | [], _ => none
  | (k, v) :: rest, key => if k = key then some v else getMap rest key

/-- Association-map write: update the first binding in place, else append —
exactly CPython's dict assignment (position of an existing key is kept). -/
def setMap {α β : Type} [DecidableEq α] : List (α × β) → α → β → List (α × β)
  | [], key, v => [(key, v)]
  | (k, w) :: rest, key, v =>
    if k = key then (k, v) :: rest else (k, w) :: setMap rest key v

/-- JSON values (`json.load` results): scalars, arrays, and objects as
ordered association lists. -/
inductive JsonVal where
  | null : JsonVal
  | bool (b : Bool) : JsonVal
  | num (n : Int) : JsonVal
  | str (s : String) : JsonVal
  | arr (xs : List JsonVal) : JsonVal
  | obj (fields : List (String × JsonVal)) : JsonVal

/-- Python `{**a, **b}`: start from `a`, then write each binding of `b`
in order (existing keys keep their position, new keys append). -/
def dictMerge (a b : List (String × JsonVal)) : List (String × JsonVal) :=
  match b with
  | [] => a
  | (k, v) :: rest => dictMerge (setMap a k v) rest

/-- The leaf rule of `op_merge_json` (install.py:318-321 and 323-326):
shallow-merge when both the source value and the existing value are
mappings (source keys win), otherwise replace wholesale. -/
def leafMerge (srcData : JsonVal) (existing : Option JsonVal) : JsonVal :=
  match srcData, existing with
  | .obj sF, some (.obj tF) => .obj (dictMerge tF sF)
  | _, _ => srcData

/-- Root-level merge of `op_merge_json` when `merge_key` is falsy
(install.py:322-326). -/
def rootMerge (srcData dstData : JsonVal) : JsonVal :=
  match srcData, dstData with
  | .obj _, .obj dF => leafMerge srcData (some (.obj dF))
  | _, _ => srcData

/-- Read a JSON value at a dotted key path (observation helper for the
theorems; descends through objects only). -/
def getPath : JsonVal → List String → Option JsonVal
  | v, [] => some v
  | .obj fields, k :: rest =>
    match getMap fields k with
    | some v => getPath v rest
    | none => none
  | _, _ :: _ => none

/-- The keyed-path merge of `op_merge_json` (install.py:312-321).  Python
walks `keys[:-1]` with `target.setdefault(key, {})` — an intermediate level
must be a dict (else `AttributeError`), a missing level is created as `{}` —
then applies the leaf rule at the last key (the leaf's parent must also be a
dict, else `AttributeError`/`TypeError`).  Mutation through aliasing in the
source becomes a pure rebuild here. -/
def mergeAtKeys (srcData : JsonVal) : List String → JsonVal → Except String JsonVal
  | [], _ => .error "empty key path"
  | [last], cur =>
    match cur with
    | .obj fields => .ok (.obj (setMap fields last (leafMerge srcData (getMap fields last))))
    | _ => .error "AttributeError: item assignment on non-dict"
  | k :: rest, cur =>
    match cur with
    | .obj fields =>
      match getMap fields k with
      | some v => (mergeAtKeys srcData rest v).map (fun w => JsonVal.obj (setMap fields k w))
      | none => (mergeAtKeys srcData rest (.obj [])).map (fun w => JsonVal.obj (fields ++ [(k, w)]))
    | _ => .error "AttributeError: setdefault on non-dict"

/-- The document transformation of `op_merge_json` (install.py:311-326):
a truthy `merge_key` is split on dots and merged at that path, otherwise
the root rule applies. -/
def mergeDoc (srcData : JsonVal) (mergeKey : Option String) (dstData : JsonVal) : Except String JsonVal :=
  match mergeKey with
  | some mk =>
    if mk = "" then .ok (rootMerge srcData dstData)
    else mergeAtKeys srcData (splitStr '.' mk) dstData
  | none => .ok (rootMerge srcData dstData)

/-- File contents: raw text, or a parsed JSON document (the model treats
`json.load`/`json.dump` as inverse bijections between well-formed file bytes
and `JsonVal`; `json.dump` with fixed arguments is deterministic, so equal
values mean byte-identical files). -/
inductive FileContent where
  | raw (s : String) : FileContent
  | jsonC (j : JsonVal) : FileContent

/-- A filesystem entry: a directory or a file. -/
inductive Entry where
  | dir : Entry
  | file (c : FileContent) : Entry

/-- The filesystem: finite map from absolute paths to entries. -/
abbrev FS := List (Path × Entry)

def isDirEntry : Entry → Bool
  | .dir => true
  | .file _ => false

/-- `Path.mkdir(parents=True, exist_ok=True)`: create every missing
ancestor (and the path itself) as a directory; a non-directory in the way
raises `FileExistsError`/`NotADirectoryError`. -/
def mkdirP (fs : FS) (p : Path) : Except String FS :=
  (List.range p.length).foldlM
    (fun acc i =>
      let q := p.take (i + 1)
      match getMap acc q with
      | none => .ok (acc ++ [(q, Entry.dir)])
      | some Entry.dir => .ok acc
      | some (Entry.file _) => .error ("FileExistsError: " ++ pathStr q))
    fs

/-- `shutil.rmtree`: drop the path and everything below it. -/
def rmtreeFS (fs : FS) (p : Path) : FS :=
  fs.filter (fun pe => !(p.isPrefixOf pe.1))

/-- `Path.unlink`: drop a single entry. -/
def unlinkFS (fs : FS) (p : Path) : FS :=
  fs.filter (fun pe => pe.1 ≠ p)

/-- `shutil.copytree(src, dst, dirs_exist_ok=True)`: mirror every entry at
or below `src` to the corresponding path below `dst`, overwriting files and
merging directories (entries only under `dst` are kept). -/
def copyTreeEntries (fs : FS) (src dst : Path) : FS :=
  (fs.filter (fun pe => src.isPrefixOf pe.1)).foldl
    (fun acc pe => setMap acc (dst ++ pe.1.drop src.length) pe.2) fs

/-- One line of the audit log (`write_log`); the `stdout`/`stderr`/
`returncode` extras are attached for command events. -/
structure LogEntry where
  level : String
  message : String
  stdout : Option String
  stderr : Option String
  returncode : Option Int

/-- A plain log entry without command extras. -/
def logE (level message : String) : LogEntry := ⟨level, message, none, none, none⟩

/-- The execution context built by `resolve_paths` (install.py:123-131)
together with the run's observable world: the filesystem, the audit log
(`write_log` appends, modelled in memory), and the lines printed to the
user. -/
structure S where
  installDir : Path
  configDir : Path
  statusFile : Path
  force : Bool
  applied : List Path
  statusBackup : Option Path
  fs : FS
  log : List LogEntry
  prints : List String

/-- External effects as pure functions: `subprocess.run` (returncode,
stdout, stderr), OS-level failures of removal during rollback and of the
backup-restore copy, `sys.platform`, `os.environ`, and `datetime.now()`. -/
structure Oracle where
  run : String → Path → List (String × String) → Int × String × String
  removeErr : Path → Option String
  restoreErr : Path → Path → Option String
  platform : String
  osEnviron : List (String × String)
  now : String

def addLog (e : LogEntry) (s : S) : S := { s with log := s.log ++ [e] }

def addPrint (line : String) (s : S) : S := { s with prints := s.prints ++ [line] }

/-- `install_dir in resolved.parents`: the install dir is a proper ancestor
of the path. -/
def properUnder (instDir p : Path) : Prop := instDir <+: p ∧ p ≠ instDir

instance (instDir p : Path) : Decidable (properUnder instDir p) := by
  unfold properUnder; infer_instance

/-- `_record_created` (install.py:221-228): track a path only when it is
strictly under the install dir, appending once (idempotent). -/
def recordCreated (p : Path) (s : S) : S :=
  if p = s.installDir ∨ ¬ properUnder s.installDir p then s
  else if p ∈ s.applied then s
  else { s with applied := s.applied ++ [p] }

/-- Failed operations raise in the source; the raised state (filesystem and
context mutations up to the failure point) survives by reference, so errors
carry the state. -/
abbrev OpResult := Except (String × S) S

/-- `_source_path`: `config_dir / op["source"]`, resolved. -/
def sourcePath (source : Path) (s : S) : Path := s.configDir ++ source

/-- `_target_path`: `install_dir / op["target"]`, resolved. -/
def targetPath (target : Path) (s : S) : Path := s.installDir ++ target

/-- `op_copy_dir` (install.py:231-243). -/
def opCopyDir (source target : Path) (s : S) : OpResult :=
  let src := sourcePath source s
  let dst := targetPath target s
  let existedBefore := (getMap s.fs dst).isSome
  match mkdirP s.fs dst.dropLast with
  | .error e => .error (e, s)
  | .ok fs1 =>
    match getMap fs1 src with
    | some Entry.dir =>
      let s1 : S := { s with fs := copyTreeEntries fs1 src dst }
      let s2 := if existedBefore then s1 else recordCreated dst s1
      .ok (addLog (logE "INFO" ("Copied dir " ++ pathStr src ++ " -> " ++ pathStr dst)) s2)
    | some (Entry.file _) =>
      .error ("NotADirectoryError: " ++ pathStr src, { s with fs := fs1 })
    | none =>
      .error ("FileNotFoundError: " ++ pathStr src, { s with fs := fs1 })

/-- Immediate subdirectories of `src` present in the filesystem
(`src.iterdir()` keeping directories), in filesystem-map order. -/
def childDirs (fs : FS) (src : Path) : List Path :=
  (fs.filter (fun pe =>
    src.isPrefixOf pe.1 && pe.1.length == src.length + 1 && isDirEntry pe.2)).map (·.1)

/-- Immediate file children of a directory (`subdir.iterdir()` keeping
files), with their contents. -/
def childFiles (fs : FS) (d : Path) : List (Path × FileContent) :=
  (fs.filter (fun pe =>
    d.isPrefixOf pe.1 && pe.1.length == d.length + 1 && !isDirEntry pe.2)).filterMap
    (fun pe => match pe.2 with
      | Entry.file c => some (pe.1, c)
      | Entry.dir => none)

/-- Inner loop of `op_merge_dir` (install.py:259-266): copy each file of a
source subdirectory, skipping existing destinations unless forced. -/
def mergeDirFiles (force : Bool) (targetSubdir : Path) (subdirName : String) :
    List (Path × FileContent) → FS → List String → List String → FS × List String × List String
  | [], fs, merged, skipped => (fs, merged, skipped)
  | (fp, c) :: rest, fs, merged, skipped =>
    let fname := fp.getLastD ""
    let dst := targetSubdir ++ [fname]
    if (getMap fs dst).isSome && !force then
      mergeDirFiles force targetSubdir subdirName rest fs merged (skipped ++ [subdirName ++ "/" ++ fname])
    else
      mergeDirFiles force targetSubdir subdirName rest (setMap fs dst (Entry.file c)) (merged ++ [subdirName ++ "/" ++ fname]) skipped

/-- Outer loop of `op_merge_dir` (install.py:254-266): for each immediate
subdirectory of the source, ensure a same-named subdirectory under the
install dir and copy its files.  Source listings come from the pre-operation
snapshot of the filesystem; destination-existence checks use the live map.
Errors carry the filesystem mutated so far. -/
def mergeDirSubdirs (force : Bool) (instDir : Path) (srcFS : FS) :
    List Path → FS → List String → List String → Except (String × FS) (FS × List String × List String)
  | [], fs, merged, skipped => .ok (fs, merged, skipped)
  | sd :: rest, fs, merged, skipped =>
    let name := sd.getLastD ""
    match mkdirP fs (instDir ++ [name]) with
    | .error e => .error (e, fs)
    | .ok fs1 =>
      match mergeDirFiles force (instDir ++ [name]) name (childFiles srcFS sd) fs1 merged skipped with
      | (fs2, m2, k2) => mergeDirSubdirs force instDir srcFS rest fs2 m2 k2

/-- `op_merge_dir` (install.py:246-272): merge the source directory's
subdirectories into same-named subdirectories of the install dir; per file,
an existing destination without force is collected as a skip (reported to
the user with a hint), not a failure.  Registers no tracked creations. -/
def opMergeDir (source : Path) (s : S) : OpResult :=
  let src := sourcePath source s
  match getMap s.fs src with
  | none => .error ("FileNotFoundError: " ++ pathStr src, s)
  | some (Entry.file _) => .error ("NotADirectoryError: " ++ pathStr src, s)
  | some Entry.dir =>
    match mergeDirSubdirs s.force s.installDir s.fs (childDirs s.fs src) s.fs [] [] with
    | .error (e, fs2) => .error (e, { s with fs := fs2 })
    | .ok (fs2, merged, skipped) =>
      let s1 := addLog (logE "INFO" ("Merged " ++ src.getLastD "" ++ ": " ++
        (if merged.isEmpty then "no files" else String.intercalate ", " merged)))
        { s with fs := fs2 }
      if skipped.isEmpty then .ok s1
      else .ok (addPrint "  Hint: Use --force to overwrite existing files"
        (addPrint ("  Skipped " ++ toString skipped.length ++ " existing file(s): " ++
          String.intercalate ", " skipped) s1))

/-- `op_copy_file` (install.py:275-290): skip (log + two printed lines,
no mutation, no tracking) when the target exists and force is false;
otherwise create parents, copy, and track the target when it is new. -/
def opCopyFile (source target : Path) (s : S) : OpResult :=
  let src := sourcePath source s
  let dst := targetPath target s
  let existedBefore := (getMap s.fs dst).isSome
  if existedBefore && !s.force then
    .ok (addPrint "  Hint: Use --force to overwrite existing files"
      (addPrint ("  Skipped existing file: " ++ dst.getLastD "")
        (addLog (logE "INFO" ("Skip existing file: " ++ pathStr dst)) s)))
  else
    match mkdirP s.fs dst.dropLast with
    | .error e => .error (e, s)
    | .ok fs1 =>
      match getMap fs1 src with
      | some (Entry.file c) =>
        let s1 : S := { s with fs := setMap fs1 dst (Entry.file c) }
        let s2 := if existedBefore then s1 else recordCreated dst s1
        .ok (addLog (logE "INFO" ("Copied file " ++ pathStr src ++ " -> " ++ pathStr dst)) s2)
      | some Entry.dir => .error ("IsADirectoryError: " ++ pathStr src, { s with fs := fs1 })
      | none => .error ("FileNotFoundError: " ++ pathStr src, { s with fs := fs1 })

/-- `op_merge_json` (install.py:293-332): fail when the source is missing;
load the target (an absent target is an empty object, registered as a
tracked creation); merge per `mergeDoc`; write the result back. -/
def opMergeJson (source target : Path) (mergeKey : Option String) (s : S) : OpResult :=
  let src := sourcePath source s
  let dst := targetPath target s
  match getMap s.fs src with
  | none => .error ("Source JSON not found: " ++ pathStr src, s)
  | some Entry.dir => .error ("IsADirectoryError: " ++ pathStr src, s)
  | some (Entry.file (FileContent.raw _)) => .error ("Invalid JSON in " ++ pathStr src, s)
  | some (Entry.file (FileContent.jsonC srcData)) =>
    match mkdirP s.fs dst.dropLast with
    | .error e => .error (e, s)
    | .ok fs1 =>
      let loaded : Except (String × S) (JsonVal × S) :=
        match getMap fs1 dst with
        | some (Entry.file (FileContent.jsonC d)) => .ok (d, { s with fs := fs1 })
        | some (Entry.file (FileContent.raw _)) =>
          .error ("Invalid JSON in " ++ pathStr dst, { s with fs := fs1 })
        | some Entry.dir => .error ("IsADirectoryError: " ++ pathStr dst, { s with fs := fs1 })
        | none => .ok (JsonVal.obj [], recordCreated dst { s with fs := fs1 })
      match loaded with
      | .error e => .error e
      | .ok (dstData, s1) =>
        match mergeDoc srcData mergeKey dstData with
        | .error e => .error (e, s1)
        | .ok merged =>
          let s2 : S := { s1 with fs := setMap s1.fs dst (Entry.file (FileContent.jsonC merged)) }
          .ok (addLog (logE "INFO" ("Merged JSON " ++ pathStr src ++ " -> " ++ pathStr dst)) s2)

/-- Environment construction of `op_run_command` (install.py:336-338):
copy the inherited environment, then write each declared variable with
every occurrence of the literal install-dir placeholder substituted. -/
def buildCmdEnv (osEnv : List (String × String)) (envDecl : List (String × String)) (instDir : Path) : List (String × String) :=
  envDecl.foldl (fun acc kv => setMap acc kv.1 (replaceAll kv.2 "${install_dir}" (pathStr instDir))) osEnv

/-- The platform substitution rule of `op_run_command` (install.py:341-342):
on win32 the declared `bash install.sh` becomes `cmd /c install.bat`. -/
def substCommand (oracle : Oracle) (command : String) : String :=
  if oracle.platform = "win32" && stripStr command = "bash install.sh" then "cmd /c install.bat"
  else command

/-- `op_run_command` (install.py:335-364): platform substitution, shell run
in `config_dir` via the oracle, audit entry with captured output, failure
naming the exit code and command exactly when the exit code is non-zero. -/
def opRunCommand (command : String) (envDecl : List (String × String)) (oracle : Oracle) (s : S) : OpResult :=
  let env := buildCmdEnv oracle.osEnviron envDecl s.installDir
  let cmd := substCommand oracle command
  let r := oracle.run cmd s.configDir env
  let s1 := addLog ⟨"INFO", "Command: " ++ cmd, some r.2.1, some r.2.2, some r.1⟩ s
  if r.1 = 0 then .ok s1
  else .error ("Command failed with code " ++ toString r.1 ++ ": " ++ cmd, s1)

/-- The typed operations dispatched by `execute_module` (install.py:180-193);
an unrecognized type string is kept as the defensive failing case. -/
inductive Op where
  | copyDir (source target : Path) : Op
  | copyFile (source target : Path) : Op
  | mergeDir (source : Path) : Op
  | mergeJson (source target : Path) (mergeKey : Option String) : Op
  | runCommand (command : String) (env : List (String × String)) : Op
  | unknown (typeName : String) : Op

/-- The operation's `type` string as recorded in outcomes. -/
def Op.typeStr : Op → String
  | .copyDir .. => "copy_dir"
  | .copyFile .. => "copy_file"
  | .mergeDir .. => "merge_dir"
  | .mergeJson .. => "merge_json"
  | .runCommand .. => "run_command"
  | .unknown t => t

/-- A module declaration from the config. -/
structure ModuleCfg where
  enabled : Bool
  description : String
  operations : List Op

/-- The dispatch site of `execute_module` (install.py:182-193). -/
def runOp (oracle : Oracle) (op : Op) (s : S) : OpResult :=
  match op with
  | .copyDir src tgt => opCopyDir src tgt s
  | .copyFile src tgt => opCopyFile src tgt s
  | .mergeDir src => opMergeDir src s
  | .mergeJson src tgt mk => opMergeJson src tgt mk s
  | .runCommand cmd env => opRunCommand cmd env oracle s
  | .unknown t => .error ("Unknown operation type: " ++ t, s)

/-- One per-operation outcome line of a module result. -/
structure OpOutcome where
  typeName : String
  status : String
  error : Option String
deriving DecidableEq, Repr

/-- A per-module result (install.py:172-177). -/
structure ModuleRes where
  module : String
  status : String
  operations : List OpOutcome
  installedAt : String
deriving DecidableEq, Repr

/-- Loop of `execute_module` (install.py:179-208): run operations in
declared order; the first failure records a failed outcome, logs an error,
and re-raises (the remaining operations never run). -/
def execOps (oracle : Oracle) (name : String) :
    List Op → S → List OpOutcome → Except (List OpOutcome × S) (List OpOutcome × S)
  | [], s, acc => .ok (acc, s)
  | op :: rest, s, acc =>
    match runOp oracle op s with
    | .ok s1 => execOps oracle name rest s1 (acc ++ [⟨op.typeStr, "success", none⟩])
    | .error (e, s1) =>
      .error (acc ++ [⟨op.typeStr, "failed", some e⟩],
        addLog (logE "ERROR" ("Module " ++ name ++ " failed on " ++ op.typeStr ++ ": " ++ e)) s1)

/-- `execute_module` (install.py:171-210): package the operation outcomes
into a module result; a failure re-raises (error case) with the result that
the source builds but then discards at the raise site. -/
def executeModule (oracle : Oracle) (name : String) (cfg : ModuleCfg) (s : S) :
    Except (ModuleRes × S) (ModuleRes × S) :=
  match execOps oracle name cfg.operations s [] with
  | .ok (ops, s1) => .ok (⟨name, "success", ops, oracle.now⟩, s1)
  | .error (ops, s1) => .error (⟨name, "failed", ops, oracle.now⟩, s1)

/-- Loop of `rollback` (install.py:407-423): walk the tracked paths in
reverse insertion order; skip the install dir itself and anything not
strictly under it; remove a directory tree or unlink a file; an OS-level
removal failure (oracle) is logged and the loop continues.  Returns the
state plus the list of paths actually removed, in removal order. -/
def rollbackPaths (oracle : Oracle) (instDir : Path) :
    List Path → S → S × List Path
  | [], s => (s, [])
  | p :: rest, s =>
    if p = instDir ∨ ¬ properUnder instDir p then
      rollbackPaths oracle instDir rest s
    else
      match oracle.removeErr p with
      | some e =>
        rollbackPaths oracle instDir rest
          (addLog (logE "ERROR" ("Rollback skipped " ++ pathStr p ++ ": " ++ e)) s)
      | none =>
        let fs1 := if (getMap s.fs p).isSome && isDirEntry ((getMap s.fs p).getD Entry.dir)
          then rmtreeFS s.fs p else unlinkFS s.fs p
        let r := rollbackPaths oracle instDir rest { s with fs := fs1 }
        (r.1, p :: r.2)

/-- `rollback` (install.py:403-429): log start, best-effort removal loop,
then — outside any try/except — restore the status backup with
`shutil.copy2` when one was captured and still exists; a restore failure
propagates out of `rollback`. -/
def rollback (oracle : Oracle) (s : S) : Except (String × S) (S × List Path) :=
  let s0 := addLog (logE "WARNING" "Rolling back installation") s
  let r := rollbackPaths oracle s0.installDir s0.applied.reverse s0
  let s1 := r.1
  let finish : Except (String × S) S :=
    match s1.statusBackup with
    | none => .ok s1
    | some b =>
      match getMap s1.fs b with
      | none => .ok s1
      | some Entry.dir => .error ("IsADirectoryError: " ++ pathStr b, s1)
      | some (Entry.file c) =>
        match oracle.restoreErr b s1.statusFile with
        | some e => .error (e, s1)
        | none => .ok { s1 with fs := setMap s1.fs s1.statusFile (Entry.file c) }
  match finish with
  | .error e => .error e
  | .ok s2 => .ok (addLog (logE "INFO" "Rollback completed") s2, r.2)

/-- JSON encoding of one operation outcome, as `write_status` serializes it. -/
def opOutcomeJson (o : OpOutcome) : JsonVal :=
  .obj ([("type", .str o.typeName), ("status", .str o.status)] ++
    (match o.error with
     | some e => [("error", JsonVal.str e)]
     | none => []))

/-- JSON encoding of one module result. -/
def moduleResJson (r : ModuleRes) : JsonVal :=
  .obj [("module", .str r.module), ("status", .str r.status),
    ("operations", .arr (r.operations.map opOutcomeJson)),
    ("installed_at", .str r.installedAt)]

/-- `write_status` (install.py:382-391): build the installation status
document from this run's results and overwrite the status file, creating
parent directories as needed (a failure there propagates). -/
def writeStatus (oracle : Oracle) (results : List ModuleRes) (s : S) : Except (String × S) S :=
  let status : JsonVal := .obj [("installed_at", .str oracle.now),
    ("modules", .obj (results.map (fun r => (r.module, moduleResJson r))))]
  match mkdirP s.fs s.statusFile.dropLast with
  | .error e => .error (e, s)
  | .ok fs1 => .ok { s with fs := setMap fs1 s.statusFile (Entry.file (FileContent.jsonC status)) }

/-- `Path.with_suffix(".json.bak")` on the status file name: replace the
extension (everything from the last dot) with `.json.bak`; a dotless name
just gains the suffix. -/
def withSuffixJsonBak (name : String) : String :=
  let parts := splitStr '.' name
  if parts.length ≤ 1 then name ++ ".json.bak"
  else String.intercalate "." parts.dropLast ++ ".json.bak"

/-- `prepare_status_backup` (install.py:394-400): when a status file
exists, copy it byte-for-byte to the `.json.bak` sibling and remember that
backup path in the context. -/
def prepareStatusBackup (s : S) : Except (String × S) S :=
  match getMap s.fs s.statusFile with
  | none => .ok s
  | some entry =>
    let bak := s.statusFile.dropLast ++ [withSuffixJsonBak (s.statusFile.getLastD "")]
    match mkdirP s.fs bak.dropLast with
    | .error e => .error (e, s)
    | .ok fs1 => .ok { s with fs := setMap fs1 bak entry, statusBackup := some bak }

/-- What a run of the module loop produced: the process exit code, the
in-memory results list, the final state, and whether rollback fired. -/
structure RunOutcome where
  exitCode : Nat
  results : List ModuleRes
  state : S
  rolledBack : Bool

/-- The module loop of `main` (install.py:699-718): per module, on success
append the result and continue; on failure roll back, then either abort the
whole run with exit code 1 (force false, status never written) or record a
stub failed result, break out of the loop, write the status and exit 0
(force true).  The error case models an exception escaping `main`
uncaught (a rollback-restore or status-write failure). -/
def runModulesAux (oracle : Oracle) (force : Bool) :
    List (String × ModuleCfg) → S → List ModuleRes → Except (String × S) RunOutcome
  | [], s, acc =>
    match writeStatus oracle acc s with
    | .error e => .error e
    | .ok s1 => .ok ⟨0, acc, s1, false⟩
  | (name, cfg) :: rest, s, acc =>
    match executeModule oracle name cfg s with
    | .ok (r, s1) => runModulesAux oracle force rest s1 (acc ++ [r])
    | .error (_, s1) =>
      if force then
        match rollback oracle s1 with
        | .error e => .error e
        | .ok (s2, _) =>
          let acc1 := acc ++ [⟨name, "failed", [], oracle.now⟩]
          match writeStatus oracle acc1 s2 with
          | .error e => .error e
          | .ok s3 => .ok ⟨0, acc1, s3, true⟩
      else
        match rollback oracle s1 with
        | .error e => .error e
        | .ok (s2, _) => .ok ⟨1, acc, s2, true⟩

/-- The module loop of `main`, started with an empty results list. -/
def runModules (oracle : Oracle) (force : Bool)
    (modules : List (String × ModuleCfg)) (s : S) : Except (String × S) RunOutcome :=
  runModulesAux oracle force modules s []

/-- The default of the `--install-dir` flag (install.py:30). -/
def DEFAULT_INSTALL_DIR : String := "~/.claude"

/-- Install-dir precedence in `resolve_paths` (install.py:109-114):
a truthy CLI value differing from the default wins; otherwise a truthy
config `install_dir` wins; otherwise the default.  Python truthiness of a
string is non-emptiness; an absent config key reads as `None` (falsy). -/
def resolveInstallDirRaw (argInstallDir : String) (cfgInstallDir : Option String) : String :=
  if argInstallDir ≠ "" ∧ argInstallDir ≠ DEFAULT_INSTALL_DIR then argInstallDir
  else
    match cfgInstallDir with
    | some c => if c ≠ "" then c else DEFAULT_INSTALL_DIR
    | none => DEFAULT_INSTALL_DIR

/-- Helper for `select_modules`: the explicit-name loop (install.py:152-159).
Blank names (after stripping) are skipped; an unknown name raises; a name
already selected keeps its first position (dict re-assignment). -/
def selectModulesAux (modules : List (String × ModuleCfg)) :
    List String → List (String × ModuleCfg) → Except String (List (String × ModuleCfg))
  | [], acc => .ok acc
  | n :: rest, acc =>
    if n = "" then selectModulesAux modules rest acc
    else
      match getMap modules n with
      | none => .error ("Module " ++ n ++ " not found")
      | some cfg =>
        selectModulesAux modules rest
          (if n ∈ acc.map Prod.fst then acc else acc ++ [(n, cfg)])

/-- `select_modules` (install.py:144-159): a falsy argument or (after
strip/lowercase) the word "all" selects exactly the enabled modules; a
comma-separated list selects the named modules regardless of their
enabled flag, failing on the first unknown name. -/
def selectModules (modules : List (String × ModuleCfg)) (moduleArg : Option String) :
    Except String (List (String × ModuleCfg)) :=
  match moduleArg with
  | none => .ok (modules.filter (fun m => m.2.enabled))
  | some arg =>
    if arg = "" then .ok (modules.filter (fun m => m.2.enabled))
    else if lowerAscii (stripStr arg) = "all" then .ok (modules.filter (fun m => m.2.enabled))
    else selectModulesAux modules ((splitStr ',' arg).map stripStr) []

/-! ### Association-map lemmas -/

theorem getMap_setMap_self {α β : Type} [DecidableEq α] (m : List (α × β)) (k : α) (v : β) :
    getMap (setMap m k v) k = some v := by
  induction m with
  | nil => simp [setMap, getMap]
  | cons kw rest ih =>
    obtain ⟨k0, w⟩ := kw
    by_cases h : k0 = k
    · simp [setMap, getMap, h]
    · simp [setMap, getMap, h, ih]

theorem getMap_setMap_ne {α β : Type} [DecidableEq α] (m : List (α × β)) (k key : α) (v : β)
    (h : k ≠ key) : getMap (setMap m k v) key = getMap m key := by
  induction m with
  | nil => simp [setMap, getMap, h]
  | cons kw rest ih =>
    obtain ⟨k0, w⟩ := kw
    by_cases h0 : k0 = k
    · subst h0; simp [setMap, getMap, h]
    · simp [setMap, getMap, h0, ih]

theorem setMap_self {α β : Type} [DecidableEq α] (m : List (α × β)) (k : α) (v : β)
    (h : getMap m k = some v) : setMap m k v = m := by
  induction m with
  | nil => simp [getMap] at h
  | cons kw rest ih =>
    obtain ⟨k0, w⟩ := kw
    by_cases h0 : k0 = k
    · subst h0
      simp [getMap] at h
      simp [setMap, h]
    · simp [getMap, h0] at h
      simp [setMap, h0, ih h]

theorem getMap_append_single_self {α β : Type} [DecidableEq α]
    (m : List (α × β)) (k : α) (v : β) (h : getMap m k = none) :
    getMap (m ++ [(k, v)]) k = some v := by
  induction m with
  | nil => simp [getMap]
  | cons kw rest ih =>
    obtain ⟨k0, w⟩ := kw
    by_cases h0 : k0 = k
    · simp [getMap, h0] at h
    · simp [getMap, h0] at h ⊢
      exact ih h

theorem getMap_append_single_ne {α β : Type} [DecidableEq α]
    (m : List (α × β)) (k key : α) (v : β) (h : k ≠ key) :
    getMap (m ++ [(k, v)]) key = getMap m key := by
  induction m with
  | nil => simp [getMap, h]
  | cons kw rest ih =>
    obtain ⟨k0, w⟩ := kw
    by_cases h0 : k0 = key
    · simp [getMap, h0]
    · simp [getMap, h0, ih]

/-! ### `dictMerge` lemmas -/

theorem getMap_dictMerge_notMem (a b : List (String × JsonVal)) (k : String)
    (h : k ∉ b.map Prod.fst) : getMap (dictMerge a b) k = getMap a k := by
  induction b generalizing a with
  | nil => simp [dictMerge]
  | cons kv rest ih =>
    obtain ⟨k1, v1⟩ := kv
    simp only [List.map_cons, List.mem_cons] at h
    push_neg at h
    rw [dictMerge, ih (setMap a k1 v1) h.2, getMap_setMap_ne]
    exact fun hk => h.1 hk.symm

theorem getMap_dictMerge_mem (a b : List (String × JsonVal)) (k : String) (v : JsonVal)
    (hnd : (b.map Prod.fst).Nodup) (h : (k, v) ∈ b) :
    getMap (dictMerge a b) k = some v := by
  induction b generalizing a with
  | nil => simp at h
  | cons kv rest ih =>
    obtain ⟨k1, v1⟩ := kv
    simp only [List.map_cons, List.nodup_cons] at hnd
    rcases List.mem_cons.mp h with heq | hmem
    · injection heq with hk hv
      subst hk; subst hv
      rw [dictMerge, getMap_dictMerge_notMem _ _ _ hnd.1, getMap_setMap_self]
    · rw [dictMerge]
      exact ih (setMap a k1 v1) hnd.2 hmem

theorem dictMerge_self (a b : List (String × JsonVal))
    (h : ∀ kv ∈ b, getMap a kv.1 = some kv.2) : dictMerge a b = a := by
  induction b with
  | nil => rfl
  | cons kv rest ih =>
    obtain ⟨k1, v1⟩ := kv
    have h1 : getMap a k1 = some v1 := h (k1, v1) (List.mem_cons_self ..)
    rw [dictMerge, setMap_self a k1 v1 h1]
    exact ih fun kv hkv => h kv (List.mem_cons_of_mem _ hkv)

/-! ### C7: idempotence of the root JSON merge -/

/-- Scalar JSON values (not arrays or objects). -/
def JsonVal.isScalar : JsonVal → Bool
  | .null => true
  | .bool _ => true
  | .num _ => true
  | .str _ => true
  | .arr _ => false
  | .obj _ => false

/-- The bindings of a JSON object (empty for non-objects). -/
def objFields : JsonVal → List (String × JsonVal)
  | .obj f => f
  | _ => []

/-- A flat JSON document: an object all of whose values are scalars. -/
def isFlatScalarObj : JsonVal → Bool
  | .obj fields => fields.all (fun kv => kv.2.isScalar)
  | _ => false

/-- C7: `MergeJson` without `merge_key` is idempotent: for every source
document and target document whose values are all scalars (the source
being a well-formed JSON object, so its keys are distinct), applying the
root merge of `op_merge_json` twice produces the same target content as
applying it once. -/
theorem mergeJson_root_idempotent (src dst : JsonVal)
    (hsrc : isFlatScalarObj src = true) (hdst : isFlatScalarObj dst = true)
    (hnd : ((objFields src).map Prod.fst).Nodup) :
    rootMerge src (rootMerge src dst) = rootMerge src dst := by
  match src, dst with
  | .obj sF, .obj dF =>
    simp only [objFields] at hnd
    simp only [rootMerge, leafMerge]
    congr 1
    exact dictMerge_self _ _ fun kv hkv => getMap_dictMerge_mem dF sF kv.1 kv.2 hnd hkv
  | .obj _, .null | .obj _, .bool _ | .obj _, .num _ | .obj _, .str _ | .obj _, .arr _ =>
    simp [isFlatScalarObj] at hdst
  | .null, _ | .bool _, _ | .num _, _ | .str _, _ | .arr _, _ =>
    simp [isFlatScalarObj] at hsrc

/-- Witness for C7 at concrete documents. -/
theorem mergeJson_root_idempotent_witness :
    isFlatScalarObj (JsonVal.obj [("a", .num 1), ("b", .str "x")]) = true ∧
    isFlatScalarObj (JsonVal.obj [("b", .num 2), ("c", .bool true)]) = true ∧
    rootMerge (JsonVal.obj [("a", .num 1), ("b", .str "x")])
        (rootMerge (JsonVal.obj [("a", .num 1), ("b", .str "x")])
          (JsonVal.obj [("b", .num 2), ("c", .bool true)])) =
      rootMerge (JsonVal.obj [("a", .num 1), ("b", .str "x")])
        (JsonVal.obj [("b", .num 2), ("c", .bool true)]) :=
  ⟨rfl, rfl,
    mergeJson_root_idempotent _ _ rfl rfl (by decide)⟩

/-! ### `mergeAtKeys` lemmas -/

theorem mergeAtKeys_ok_obj (src : JsonVal) (keys : List String) (cur out : JsonVal)
    (h : mergeAtKeys src keys cur = .ok out) : ∃ f, out = JsonVal.obj f := by
  match keys, cur with
  | [], _ => simp [mergeAtKeys] at h
  | [last], .obj fields =>
    simp only [mergeAtKeys, Except.ok.injEq] at h
    exact ⟨_, h.symm⟩
  | [last], .null | [last], .bool _ | [last], .num _ | [last], .str _ | [last], .arr _ =>
    simp [mergeAtKeys] at h
  | k :: r1 :: rs, .obj fields =>
    cases hg : getMap fields k with
    | some v =>
      cases hm : mergeAtKeys src (r1 :: rs) v with
      | ok w =>
        simp only [mergeAtKeys, hg, hm, Except.map, Except.ok.injEq] at h
        exact ⟨_, h.symm⟩
      | error e => simp [mergeAtKeys, hg, hm, Except.map] at h
    | none =>
      cases hm : mergeAtKeys src (r1 :: rs) (JsonVal.obj []) with
      | ok w =>
        simp only [mergeAtKeys, hg, hm, Except.map, Except.ok.injEq] at h
        exact ⟨_, h.symm⟩
      | error e => simp [mergeAtKeys, hg, hm, Except.map] at h
  | k :: r1 :: rs, .null | k :: r1 :: rs, .bool _ | k :: r1 :: rs, .num _
  | k :: r1 :: rs, .str _ | k :: r1 :: rs, .arr _ =>
    simp [mergeAtKeys] at h

/-- `getPath` at a single key on an object is the field lookup. -/
theorem getPath_single (fields : List (String × JsonVal)) (k : String) :
    getPath (.obj fields) [k] = getMap fields k := by
  cases hg : getMap fields k with
  | some v => simp [getPath, hg]
  | none => simp [getPath, hg]

/-- After a keyed merge, reading back along the same dotted path gives the
leaf rule applied to the source and the previously existing leaf. -/
theorem mergeAtKeys_getPath (src : JsonVal) (keys : List String) (cur out : JsonVal)
    (h : mergeAtKeys src keys cur = .ok out) :
    getPath out keys = some (leafMerge src (getPath cur keys)) := by
  induction keys generalizing cur out with
  | nil => simp [mergeAtKeys] at h
  | cons k rest ih =>
    cases rest with
    | nil =>
      match cur with
      | .obj fields =>
        simp only [mergeAtKeys, Except.ok.injEq] at h
        subst h
        rw [getPath_single, getMap_setMap_self, getPath_single]
      | .null | .bool _ | .num _ | .str _ | .arr _ => simp [mergeAtKeys] at h
    | cons r1 rs =>
      match cur with
      | .obj fields =>
        cases hg : getMap fields k with
        | some v =>
          cases hm : mergeAtKeys src (r1 :: rs) v with
          | ok w =>
            simp only [mergeAtKeys, hg, hm, Except.map, Except.ok.injEq] at h
            subst h
            show getPath (JsonVal.obj (setMap fields k w)) (k :: r1 :: rs) = _
            simp only [getPath, getMap_setMap_self]
            rw [ih v w hm]
            simp [getPath, hg]
          | error e => simp [mergeAtKeys, hg, hm, Except.map] at h
        | none =>
          cases hm : mergeAtKeys src (r1 :: rs) (JsonVal.obj []) with
          | ok w =>
            simp only [mergeAtKeys, hg, hm, Except.map, Except.ok.injEq] at h
            subst h
            show getPath (JsonVal.obj (fields ++ [(k, w)])) (k :: r1 :: rs) = _
            simp only [getPath, getMap_append_single_self fields k w hg]
            rw [ih _ w hm]
            simp [getPath, hg, getMap]
          | error e => simp [mergeAtKeys, hg, hm, Except.map] at h
      | .null | .bool _ | .num _ | .str _ | .arr _ => simp [mergeAtKeys] at h

/-- After a keyed merge, every intermediate level of the dotted path exists
in the result and is a mapping (walked if present, created if absent). -/
theorem mergeAtKeys_intermediate (src : JsonVal) (keys : List String) (cur out : JsonVal)
    (h : mergeAtKeys src keys cur = .ok out) :
    ∀ i, i + 1 < keys.length → ∃ f, getPath out (keys.take (i + 1)) = some (JsonVal.obj f) := by
  induction keys generalizing cur out with
  | nil => simp [mergeAtKeys] at h
  | cons k rest ih =>
    intro i hi
    cases rest with
    | nil => simp at hi
    | cons r1 rs =>
      match cur with
      | .obj fields =>
        cases hg : getMap fields k with
        | some v =>
          cases hm : mergeAtKeys src (r1 :: rs) v with
          | ok w =>
            simp only [mergeAtKeys, hg, hm, Except.map, Except.ok.injEq] at h
            subst h
            cases i with
            | zero =>
              obtain ⟨f, hf⟩ := mergeAtKeys_ok_obj src (r1 :: rs) v w hm
              subst hf
              exact ⟨f, by rw [List.take_succ_cons, List.take_zero, getPath_single,
                getMap_setMap_self]⟩
            | succ j =>
              obtain ⟨f, hf⟩ := ih v w hm j (by simpa using hi)
              refine ⟨f, ?_⟩
              simp only [List.take_succ_cons, getPath, getMap_setMap_self]
              exact hf
          | error e => simp [mergeAtKeys, hg, hm, Except.map] at h
        | none =>
          cases hm : mergeAtKeys src (r1 :: rs) (JsonVal.obj []) with
          | ok w =>
            simp only [mergeAtKeys, hg, hm, Except.map, Except.ok.injEq] at h
            subst h
            cases i with
            | zero =>
              obtain ⟨f, hf⟩ := mergeAtKeys_ok_obj src (r1 :: rs) (JsonVal.obj []) w hm
              subst hf
              exact ⟨f, by rw [List.take_succ_cons, List.take_zero, getPath_single,
                getMap_append_single_self fields k (JsonVal.obj f) hg]⟩
            | succ j =>
              obtain ⟨f, hf⟩ := ih _ w hm j (by simpa using hi)
              refine ⟨f, ?_⟩
              simp only [List.take_succ_cons, getPath, getMap_append_single_self fields k w hg]
              exact hf
          | error e => simp [mergeAtKeys, hg, hm, Except.map] at h
      | .null | .bool _ | .num _ | .str _ | .arr _ => simp [mergeAtKeys] at h

/-! ### `recordCreated` and path lemmas -/

/-- The state carried by an operation result (errors keep the mutated
state, as exceptions do in the source). -/
def stateOfOp : OpResult → S
  | .ok s => s
  | .error (_, s) => s

/-- Whether an operation result is a success. -/
def isOkOp : OpResult → Bool
  | .ok _ => true
  | .error _ => false

theorem properUnder_append (instDir t : Path) (ht : t ≠ []) :
    properUnder instDir (instDir ++ t) := by
  refine ⟨List.prefix_append instDir t, fun h => ?_⟩
  have hl := congrArg List.length h
  simp only [List.length_append] at hl
  exact ht (List.length_eq_zero.mp (by omega))

theorem recordCreated_mem (p : Path) (s : S) (h : properUnder s.installDir p) :
    p ∈ (recordCreated p s).applied := by
  unfold recordCreated
  have hne : ¬ (p = s.installDir ∨ ¬ properUnder s.installDir p) := by
    push_neg
    exact ⟨h.2, h⟩
  rw [if_neg hne]
  by_cases hp : p ∈ s.applied
  · rw [if_pos hp]; exact hp
  · rw [if_neg hp]; simp

theorem mem_recordCreated_applied (p q : Path) (s : S)
    (h : q ∈ (recordCreated p s).applied) :
    q ∈ s.applied ∨ (q = p ∧ properUnder s.installDir p) := by
  unfold recordCreated at h
  split at h
  · exact Or.inl h
  · rename_i hcond
    push_neg at hcond
    split at h
    · exact Or.inl h
    · simp only [List.mem_append, List.mem_singleton] at h
      rcases h with h | h
      · exact Or.inl h
      · exact Or.inr ⟨h, hcond.2⟩

theorem recordCreated_idem (p : Path) (s : S) (h : p ∈ s.applied) :
    recordCreated p s = s := by
  simp [recordCreated, h]

theorem recordCreated_applied_extends (p : Path) (s : S) :
    s.applied <+: (recordCreated p s).applied := by
  unfold recordCreated
  split
  · exact List.prefix_refl _
  · split
    · exact List.prefix_refl _
    · exact ⟨[p], rfl⟩

/-! ### C6: MergeJson semantics -/

/-- C6: `MergeJson` fails if its source file does not exist; an absent
target file is treated as an empty object and registered as a tracked
creation; and for a dotted `merge_key`, intermediate mapping levels are
walked/created in the destination and the leaf gets the source
shallow-merged when both sides are mappings (source keys win), otherwise
replaced wholesale (`leafMerge` is that leaf rule, read back with
`getPath`). -/
theorem mergeJson_semantics :
    (∀ (source target : Path) (mk : Option String) (s : S),
       getMap s.fs (sourcePath source s) = none →
       opMergeJson source target mk s =
         .error ("Source JSON not found: " ++ pathStr (sourcePath source s), s)) ∧
    (∀ (source target : Path) (mk : Option String) (s : S) (j : JsonVal) (fs1 : FS),
       getMap s.fs (sourcePath source s) = some (Entry.file (FileContent.jsonC j)) →
       mkdirP s.fs (targetPath target s).dropLast = .ok fs1 →
       getMap fs1 (targetPath target s) = none →
       target ≠ [] →
       targetPath target s ∈ (stateOfOp (opMergeJson source target mk s)).applied ∧
       ∀ m, mergeDoc j mk (JsonVal.obj []) = .ok m →
         isOkOp (opMergeJson source target mk s) = true ∧
           getMap (stateOfOp (opMergeJson source target mk s)).fs (targetPath target s) =
             some (Entry.file (FileContent.jsonC m))) ∧
    (∀ (srcData dstData : JsonVal) (mk : String), mk ≠ "" →
       mergeDoc srcData (some mk) dstData = mergeAtKeys srcData (splitStr '.' mk) dstData) ∧
    (∀ (srcData cur out : JsonVal) (keys : List String),
       mergeAtKeys srcData keys cur = .ok out →
       getPath out keys = some (leafMerge srcData (getPath cur keys)) ∧
       ∀ i, i + 1 < keys.length →
         ∃ f, getPath out (keys.take (i + 1)) = some (JsonVal.obj f)) := by
  refine ⟨?_, ?_, ?_, ?_⟩
  · intro source target mk s hsrc
    simp only [opMergeJson, hsrc]
  · intro source target mk s j fs1 hsrc hmk habs htgt
    have hunder : properUnder s.installDir (targetPath target s) :=
      properUnder_append s.installDir target htgt
    cases hmd : mergeDoc j mk (JsonVal.obj []) with
    | ok m =>
      constructor
      · simp only [opMergeJson, hsrc, hmk, habs, hmd, stateOfOp, addLog]
        exact recordCreated_mem _ _ hunder
      · intro m' hm'
        injection hm' with hm'
        subst hm'
        constructor
        · simp only [opMergeJson, hsrc, hmk, habs, hmd, isOkOp]
        · simp only [opMergeJson, hsrc, hmk, habs, hmd, stateOfOp, addLog]
          exact getMap_setMap_self ..
    | error e =>
      constructor
      · simp only [opMergeJson, hsrc, hmk, habs, hmd, stateOfOp]
        exact recordCreated_mem _ _ hunder
      · intro m' hm'
        exact absurd hm' (by simp)
  · intro srcData dstData mk hmk
    simp only [mergeDoc, if_neg hmk]
  · intro srcData cur out keys h
    exact ⟨mergeAtKeys_getPath _ _ _ _ h, mergeAtKeys_intermediate _ _ _ _ h⟩

/-! ### Concrete fixtures for the witnesses -/

/-- Sample install dir used by the concrete witnesses. -/
def wInstallDir : Path := ["home", "u", ".claude"]

/-- Sample config dir used by the concrete witnesses. -/
def wConfigDir : Path := ["repo"]

/-- A sample pre-run execution state: empty tracker, base directories in
place. -/
def baseS : S :=
  { installDir := wInstallDir
    configDir := wConfigDir
    statusFile := wInstallDir ++ ["installed_modules.json"]
    force := false
    applied := []
    statusBackup := none
    fs := [(["home"], Entry.dir), (["home", "u"], Entry.dir),
      (wInstallDir, Entry.dir), (wConfigDir, Entry.dir)]
    log := []
    prints := [] }

/-- `baseS` with a JSON source file in the config dir. -/
def jsonS : S :=
  { baseS with fs := baseS.fs ++
      [(wConfigDir ++ ["s.json"], Entry.file (FileContent.jsonC (JsonVal.obj [("k", JsonVal.num 1)])))] }

/-- Witness for C6: the three parts of `mergeJson_semantics` at concrete
inputs — a missing source fails; an absent target is treated as `{}` and
tracked; a two-level dotted path creates the intermediate level and places
the source at the leaf. -/
theorem mergeJson_semantics_witness :
    (getMap baseS.fs (sourcePath ["missing.json"] baseS) = none ∧
     opMergeJson ["missing.json"] ["t.json"] none baseS =
       .error ("Source JSON not found: " ++ pathStr (sourcePath ["missing.json"] baseS), baseS)) ∧
    (getMap jsonS.fs (sourcePath ["s.json"] jsonS) =
       some (Entry.file (FileContent.jsonC (JsonVal.obj [("k", JsonVal.num 1)]))) ∧
     mkdirP jsonS.fs (targetPath ["t.json"] jsonS).dropLast = .ok jsonS.fs ∧
     getMap jsonS.fs (targetPath ["t.json"] jsonS) = none ∧
     (["t.json"] : Path) ≠ [] ∧
     targetPath ["t.json"] jsonS ∈ (stateOfOp (opMergeJson ["s.json"] ["t.json"] none jsonS)).applied ∧
     getMap (stateOfOp (opMergeJson ["s.json"] ["t.json"] none jsonS)).fs
         (targetPath ["t.json"] jsonS) =
       some (Entry.file (FileContent.jsonC (JsonVal.obj [("k", JsonVal.num 1)])))) ∧
    (("x.y" : String) ≠ "" ∧
     mergeDoc (JsonVal.obj [("a", JsonVal.num 2)]) (some "x.y") (JsonVal.obj []) =
       mergeAtKeys (JsonVal.obj [("a", JsonVal.num 2)]) (splitStr '.' "x.y") (JsonVal.obj [])) ∧
    (mergeAtKeys (JsonVal.obj [("a", JsonVal.num 2)]) ["x", "y"] (JsonVal.obj []) =
       .ok (JsonVal.obj [("x", JsonVal.obj [("y", JsonVal.obj [("a", JsonVal.num 2)])])]) ∧
     getPath (JsonVal.obj [("x", JsonVal.obj [("y", JsonVal.obj [("a", JsonVal.num 2)])])])
         ["x", "y"] =
       some (leafMerge (JsonVal.obj [("a", JsonVal.num 2)])
         (getPath (JsonVal.obj []) ["x", "y"]))) :=
  ⟨⟨rfl, mergeJson_semantics.1 ["missing.json"] ["t.json"] none baseS rfl⟩,
   ⟨rfl, rfl, rfl, by decide,
    (mergeJson_semantics.2.1 ["s.json"] ["t.json"] none jsonS
      (JsonVal.obj [("k", JsonVal.num 1)]) jsonS.fs rfl rfl rfl (by decide)).1,
    ((mergeJson_semantics.2.1 ["s.json"] ["t.json"] none jsonS
      (JsonVal.obj [("k", JsonVal.num 1)]) jsonS.fs rfl rfl rfl (by decide)).2
      (JsonVal.obj [("k", JsonVal.num 1)]) rfl).2⟩,
   ⟨by decide,
    mergeJson_semantics.2.2.1 (JsonVal.obj [("a", JsonVal.num 2)]) (JsonVal.obj [])
      "x.y" (by decide)⟩,
   ⟨rfl,
    (mergeJson_semantics.2.2.2 (JsonVal.obj [("a", JsonVal.num 2)]) (JsonVal.obj [])
      (JsonVal.obj [("x", JsonVal.obj [("y", JsonVal.obj [("a", JsonVal.num 2)])])])
      ["x", "y"] rfl).1⟩⟩

/-! ### C4: CopyFile onto an existing target without force -/

/-- C4: for every `CopyFile` whose target already exists, when force is
false the operation succeeds as a no-op: no error, a skip log entry plus
two printed lines (the skip notice and the force hint), a byte-identical
target (the whole filesystem is untouched), and nothing recorded in
`applied_paths`. -/
theorem copyFile_skip_noop (source target : Path) (s : S)
    (hex : (getMap s.fs (targetPath target s)).isSome = true)
    (hforce : s.force = false) :
    isOkOp (opCopyFile source target s) = true ∧
    (stateOfOp (opCopyFile source target s)).fs = s.fs ∧
    getMap (stateOfOp (opCopyFile source target s)).fs (targetPath target s) =
      getMap s.fs (targetPath target s) ∧
    (stateOfOp (opCopyFile source target s)).applied = s.applied ∧
    logE "INFO" ("Skip existing file: " ++ pathStr (targetPath target s)) ∈
      (stateOfOp (opCopyFile source target s)).log ∧
    ("  Skipped existing file: " ++ (targetPath target s).getLastD "") ∈
      (stateOfOp (opCopyFile source target s)).prints ∧
    "  Hint: Use --force to overwrite existing files" ∈
      (stateOfOp (opCopyFile source target s)).prints := by
  have hcond : ((getMap s.fs (targetPath target s)).isSome && !s.force) = true := by
    rw [hex, hforce]
    rfl
  refine ⟨?_, ?_, ?_, ?_, ?_, ?_, ?_⟩ <;>
    simp [opCopyFile, hcond, stateOfOp, isOkOp, addPrint, addLog]

/-- `baseS` with an existing file at the copy target and a fresh source. -/
def cpS : S :=
  { baseS with fs := baseS.fs ++
      [(wInstallDir ++ ["f.txt"], Entry.file (FileContent.raw "old")),
       (wConfigDir ++ ["f.txt"], Entry.file (FileContent.raw "new"))] }

/-- Witness for C4 at a concrete state with an existing target. -/
theorem copyFile_skip_noop_witness :
    (getMap cpS.fs (targetPath ["f.txt"] cpS)).isSome = true ∧
    cpS.force = false ∧
    isOkOp (opCopyFile ["f.txt"] ["f.txt"] cpS) = true ∧
    (stateOfOp (opCopyFile ["f.txt"] ["f.txt"] cpS)).fs = cpS.fs ∧
    (stateOfOp (opCopyFile ["f.txt"] ["f.txt"] cpS)).applied = cpS.applied ∧
    logE "INFO" ("Skip existing file: " ++ pathStr (targetPath ["f.txt"] cpS)) ∈
      (stateOfOp (opCopyFile ["f.txt"] ["f.txt"] cpS)).log ∧
    "  Hint: Use --force to overwrite existing files" ∈
      (stateOfOp (opCopyFile ["f.txt"] ["f.txt"] cpS)).prints :=
  ⟨rfl, rfl,
   (copyFile_skip_noop ["f.txt"] ["f.txt"] cpS rfl rfl).1,
   (copyFile_skip_noop ["f.txt"] ["f.txt"] cpS rfl rfl).2.1,
   (copyFile_skip_noop ["f.txt"] ["f.txt"] cpS rfl rfl).2.2.2.1,
   (copyFile_skip_noop ["f.txt"] ["f.txt"] cpS rfl rfl).2.2.2.2.1,
   (copyFile_skip_noop ["f.txt"] ["f.txt"] cpS rfl rfl).2.2.2.2.2.2⟩

/-! ### C8: RunCommand semantics -/

theorem getMap_buildCmdEnv_notMem (a envDecl : List (String × String)) (d : Path) (k : String)
    (h : k ∉ envDecl.map Prod.fst) :
    getMap (buildCmdEnv a envDecl d) k = getMap a k := by
  induction envDecl generalizing a with
  | nil => rfl
  | cons kv rest ih =>
    obtain ⟨k1, v1⟩ := kv
    simp only [List.map_cons, List.mem_cons] at h
    push_neg at h
    show getMap (buildCmdEnv (setMap a k1 _) rest d) k = getMap a k
    rw [ih _ h.2, getMap_setMap_ne]
    exact fun hk => h.1 hk.symm

theorem getMap_buildCmdEnv_mem (a envDecl : List (String × String)) (d : Path)
    (k v : String) (hnd : (envDecl.map Prod.fst).Nodup) (h : (k, v) ∈ envDecl) :
    getMap (buildCmdEnv a envDecl d) k =
      some (replaceAll v "${install_dir}" (pathStr d)) := by
  induction envDecl generalizing a with
  | nil => simp at h
  | cons kv rest ih =>
    obtain ⟨k1, v1⟩ := kv
    simp only [List.map_cons, List.nodup_cons] at hnd
    rcases List.mem_cons.mp h with heq | hmem
    · injection heq with hk hv
      subst hk; subst hv
      show getMap (buildCmdEnv (setMap a k _) rest d) k = _
      rw [getMap_buildCmdEnv_notMem _ _ _ _ hnd.1, getMap_setMap_self]
    · exact ih (setMap a k1 (replaceAll v1 "${install_dir}" (pathStr d))) hnd.2 hmem

/-- C8: `RunCommand` replaces every occurrence of the install-dir
placeholder in each declared environment value (well-formed declarations
have distinct names, being a JSON object), merges those values over the
inherited process environment, hands the (platform-substituted) command to
the shell with `config_dir` as working directory, succeeds exactly when the
exit code is zero, and on a non-zero exit fails with an error naming the
exit code and the command text. -/
theorem runCommand_semantics (command : String) (envDecl : List (String × String))
    (oracle : Oracle) (s : S) :
    (∀ k v, (envDecl.map Prod.fst).Nodup → (k, v) ∈ envDecl →
       getMap (buildCmdEnv oracle.osEnviron envDecl s.installDir) k =
         some (replaceAll v "${install_dir}" (pathStr s.installDir))) ∧
    (∀ k, k ∉ envDecl.map Prod.fst →
       getMap (buildCmdEnv oracle.osEnviron envDecl s.installDir) k =
         getMap oracle.osEnviron k) ∧
    ((oracle.run (substCommand oracle command) s.configDir
        (buildCmdEnv oracle.osEnviron envDecl s.installDir)).1 = 0 ↔
      isOkOp (opRunCommand command envDecl oracle s) = true) ∧
    (∀ rc out err,
       oracle.run (substCommand oracle command) s.configDir
         (buildCmdEnv oracle.osEnviron envDecl s.installDir) = (rc, out, err) →
       rc ≠ 0 →
       opRunCommand command envDecl oracle s =
         .error ("Command failed with code " ++ toString rc ++ ": " ++ substCommand oracle command,
           addLog ⟨"INFO", "Command: " ++ substCommand oracle command, some out, some err, some rc⟩ s)) := by
  refine ⟨?_, ?_, ?_, ?_⟩
  · intro k v hnd hmem
    exact getMap_buildCmdEnv_mem _ _ _ _ _ hnd hmem
  · intro k h
    exact getMap_buildCmdEnv_notMem _ _ _ _ h
  · constructor
    · intro h0
      simp [opRunCommand, h0, isOkOp]
    · intro hok
      by_cases h0 : (oracle.run (substCommand oracle command) s.configDir
          (buildCmdEnv oracle.osEnviron envDecl s.installDir)).1 = 0
      · exact h0
      · simp [opRunCommand, h0, isOkOp] at hok
  · intro rc out err hrun hrc
    simp [opRunCommand, hrun, hrc]

/-- The oracle used by the failing-command witness: every command exits 1. -/
def failOracle : Oracle :=
  { run := fun _ _ _ => (1, "boom", "err")
    removeErr := fun _ => none
    restoreErr := fun _ _ => none
    platform := "linux"
    osEnviron := [("PATH", "/usr/bin")]
    now := "t0" }

/-- Witness for C8 at the spec's example environment and a failing
command. -/
theorem runCommand_semantics_witness :
    ((([("TARGET", "${install_dir}/x")] : List (String × String)).map Prod.fst).Nodup ∧
     ("TARGET", "${install_dir}/x") ∈ ([("TARGET", "${install_dir}/x")] : List (String × String)) ∧
     getMap (buildCmdEnv failOracle.osEnviron [("TARGET", "${install_dir}/x")] baseS.installDir) "TARGET" =
       some (replaceAll "${install_dir}/x" "${install_dir}" (pathStr baseS.installDir))) ∧
    (failOracle.run (substCommand failOracle "make install") baseS.configDir
        (buildCmdEnv failOracle.osEnviron [("TARGET", "${install_dir}/x")] baseS.installDir) =
        (1, "boom", "err") ∧
     (1 : Int) ≠ 0 ∧
     opRunCommand "make install" [("TARGET", "${install_dir}/x")] failOracle baseS =
       .error ("Command failed with code " ++ toString (1 : Int) ++ ": " ++
           substCommand failOracle "make install",
         addLog ⟨"INFO", "Command: " ++ substCommand failOracle "make install",
           some "boom", some "err", some (1 : Int)⟩ baseS)) :=
  ⟨⟨by decide, by simp,
    (runCommand_semantics "make install" [("TARGET", "${install_dir}/x")] failOracle baseS).1
      "TARGET" "${install_dir}/x" (by decide) (by simp)⟩,
   ⟨rfl, by decide,
    (runCommand_semantics "make install" [("TARGET", "${install_dir}/x")] failOracle baseS).2.2.2
      1 "boom" "err" rfl (by decide)⟩⟩

/-! ### C9: install-dir precedence in `resolve_paths` -/

/-- C9 counterexample: an empty `--install-dir` string differs from the
default `~/.claude`, yet it does not win over the config value — Python
truthiness (`if args.install_dir and ...`) lets the config override it. -/
theorem installDir_precedence_counterexample :
    ("" : String) ≠ DEFAULT_INSTALL_DIR ∧
    resolveInstallDirRaw "" (some "/opt/x") = "/opt/x" ∧
    resolveInstallDirRaw "" (some "/opt/x") ≠ "" := by
  refine ⟨by decide, by decide, by decide⟩

/-- C9 (amended): a non-empty `--install-dir` differing from the default
always wins over the config; a default-valued (or empty, hence falsy)
`--install-dir` is indistinguishable from not passing the flag, so a
non-empty config `install_dir` overrides it; with neither, the default
applies. -/
theorem installDir_precedence (arg : String) (cfg : Option String) :
    (arg ≠ "" → arg ≠ DEFAULT_INSTALL_DIR → resolveInstallDirRaw arg cfg = arg) ∧
    (∀ c, (arg = "" ∨ arg = DEFAULT_INSTALL_DIR) → cfg = some c → c ≠ "" →
       resolveInstallDirRaw arg cfg = c) ∧
    ((arg = "" ∨ arg = DEFAULT_INSTALL_DIR) → (cfg = none ∨ cfg = some "") →
       resolveInstallDirRaw arg cfg = DEFAULT_INSTALL_DIR) := by
  refine ⟨?_, ?_, ?_⟩
  · intro h1 h2
    simp [resolveInstallDirRaw, h1, h2]
  · intro c hor hc hcne
    have hcond : ¬ (arg ≠ "" ∧ arg ≠ DEFAULT_INSTALL_DIR) := by
      rcases hor with h | h <;> simp [h]
    subst hc
    simp [resolveInstallDirRaw, hcond, hcne]
  · intro hor hcfg
    have hcond : ¬ (arg ≠ "" ∧ arg ≠ DEFAULT_INSTALL_DIR) := by
      rcases hor with h | h <;> simp [h]
    rcases hcfg with h | h <;> subst h <;> simp [resolveInstallDirRaw, hcond]

/-- Witness for C9 (amended) at concrete flag/config combinations. -/
theorem installDir_precedence_witness :
    (("/custom" : String) ≠ "" ∧ ("/custom" : String) ≠ DEFAULT_INSTALL_DIR ∧
     resolveInstallDirRaw "/custom" (some "/opt/x") = "/custom") ∧
    ((DEFAULT_INSTALL_DIR = "" ∨ DEFAULT_INSTALL_DIR = DEFAULT_INSTALL_DIR) ∧
     (some "/opt/x" : Option String) = some "/opt/x" ∧ ("/opt/x" : String) ≠ "" ∧
     resolveInstallDirRaw DEFAULT_INSTALL_DIR (some "/opt/x") = "/opt/x") ∧
    ((("" : String) = "" ∨ ("" : String) = DEFAULT_INSTALL_DIR) ∧
     ((none : Option String) = none ∨ (none : Option String) = some "") ∧
     resolveInstallDirRaw "" none = DEFAULT_INSTALL_DIR) :=
  ⟨⟨by decide, by decide,
    (installDir_precedence "/custom" (some "/opt/x")).1 (by decide) (by decide)⟩,
   ⟨Or.inr rfl, rfl, by decide,
    (installDir_precedence DEFAULT_INSTALL_DIR (some "/opt/x")).2.1 "/opt/x"
      (Or.inr rfl) rfl (by decide)⟩,
   ⟨Or.inl rfl, Or.inl rfl,
    (installDir_precedence "" none).2.2 (Or.inl rfl) (Or.inl rfl)⟩⟩

/-! ### C10: module selection -/

/-- Whether an `Except` value is a success. -/
def exIsOk {ε α : Type} : Except ε α → Bool
  | .ok _ => true
  | .error _ => false

/-- The state observable after the selection-plus-run part of `main`
(install.py:689-718): a selection error escapes `main` before the backup is
taken and before any module runs. `ensure_install_dir` (an external
path/permission check) is outside this model. -/
def mainModules (oracle : Oracle) (force : Bool) (modules : List (String × ModuleCfg))
    (moduleArg : Option String) (s : S) : Except (String × S) RunOutcome :=
  match selectModules modules moduleArg with
  | .error e => .error (e, s)
  | .ok sel =>
    match prepareStatusBackup s with
    | .error e => .error e
    | .ok s1 => runModulesAux oracle force sel s1 []

/-- The state carried by a run result. -/
def stateOfRun : Except (String × S) RunOutcome → S
  | .ok o => o.state
  | .error (_, s) => s

theorem selAux_ok_keys (modules : List (String × ModuleCfg)) (names : List String)
    (acc sel : List (String × ModuleCfg))
    (h : selectModulesAux modules names acc = .ok sel) (n : String) :
    n ∈ sel.map Prod.fst ↔ (n ∈ acc.map Prod.fst ∨ (n ∈ names ∧ n ≠ "")) := by
  induction names generalizing acc with
  | nil =>
    simp only [selectModulesAux, Except.ok.injEq] at h
    subst h
    simp
  | cons n0 rest ih =>
    by_cases h0 : n0 = ""
    · subst h0
      simp only [selectModulesAux, if_pos rfl] at h
      rw [ih acc h]
      simp only [List.mem_cons]
      constructor
      · rintro (hmem | ⟨hr, hn⟩)
        · exact Or.inl hmem
        · exact Or.inr ⟨Or.inr hr, hn⟩
      · rintro (hmem | ⟨he | hr, hn⟩)
        · exact Or.inl hmem
        · exact absurd he hn
        · exact Or.inr ⟨hr, hn⟩
    · cases hg : getMap modules n0 with
      | none =>
        simp only [selectModulesAux, if_neg h0, hg] at h
        exact Except.noConfusion h
      | some cfg =>
        simp only [selectModulesAux, if_neg h0, hg] at h
        rw [ih _ h]
        have hkeys : ∀ m, m ∈ ((if n0 ∈ acc.map Prod.fst then acc else acc ++ [(n0, cfg)]).map Prod.fst) ↔
            (m ∈ acc.map Prod.fst ∨ m = n0) := by
          intro m
          by_cases hc : n0 ∈ acc.map Prod.fst
          · simp only [if_pos hc]
            exact ⟨Or.inl, fun hmem => by
              rcases hmem with hmem | rfl
              · exact hmem
              · exact hc⟩
          · simp only [if_neg hc, List.map_append, List.mem_append]
            simp
        rw [hkeys n]
        simp only [List.mem_cons]
        constructor
        · rintro (⟨hmem | rfl⟩ | ⟨hr, hn⟩)
          · exact Or.inl hmem
          · exact Or.inr ⟨Or.inl rfl, h0⟩
          · exact Or.inr ⟨Or.inr hr, hn⟩
        · rintro (hmem | ⟨rfl | hr, hn⟩)
          · exact Or.inl (Or.inl hmem)
          · exact Or.inl (Or.inr rfl)
          · exact Or.inr ⟨hr, hn⟩

theorem selAux_ok_bindings (modules : List (String × ModuleCfg)) (names : List String)
    (acc sel : List (String × ModuleCfg))
    (h : selectModulesAux modules names acc = .ok sel)
    (hacc : ∀ nc ∈ acc, getMap modules nc.1 = some nc.2) :
    ∀ nc ∈ sel, getMap modules nc.1 = some nc.2 := by
  induction names generalizing acc with
  | nil =>
    simp only [selectModulesAux, Except.ok.injEq] at h
    subst h
    exact hacc
  | cons n0 rest ih =>
    by_cases h0 : n0 = ""
    · subst h0
      simp only [selectModulesAux, if_pos rfl] at h
      exact ih acc h hacc
    · cases hg : getMap modules n0 with
      | none =>
        simp only [selectModulesAux, if_neg h0, hg] at h
        exact Except.noConfusion h
      | some cfg =>
        simp only [selectModulesAux, if_neg h0, hg] at h
        refine ih _ h ?_
        intro nc hnc
        by_cases hc : n0 ∈ acc.map Prod.fst
        · rw [if_pos hc] at hnc
          exact hacc nc hnc
        · rw [if_neg hc] at hnc
          rcases List.mem_append.mp hnc with hnc | hnc
          · exact hacc nc hnc
          · rcases List.mem_singleton.mp hnc with rfl
            exact hg

theorem selAux_unknown (modules : List (String × ModuleCfg)) (names : List String)
    (n : String) (hn : n ∈ names) (hne : n ≠ "") (hg : getMap modules n = none) :
    ∀ acc, exIsOk (selectModulesAux modules names acc) = false := by
  induction names with
  | nil => simp at hn
  | cons n0 rest ih =>
    intro acc
    rcases List.mem_cons.mp hn with rfl | hr
    · simp only [selectModulesAux, if_neg hne, hg]
      rfl
    · by_cases h0 : n0 = ""
      · subst h0
        simp only [selectModulesAux, if_pos rfl]
        exact ih hr acc
      · cases hg0 : getMap modules n0 with
        | none =>
          simp only [selectModulesAux, if_neg h0, hg0]
          rfl
        | some cfg =>
          simp only [selectModulesAux, if_neg h0, hg0]
          exact ih hr _

/-- C10: with no `--module` argument (or a falsy empty one) or with
"all" (stripped, case-insensitive), exactly the enabled modules are
selected; a comma-separated list selects the named modules regardless of
their enabled flags (each selected binding comes from the config mapping,
and the selected names are exactly the non-blank stripped parts); and any
name not present in the config raises an error that escapes before the
backup is taken or any module runs, leaving the state untouched. -/
theorem selectModules_semantics :
    (∀ modules, selectModules modules none = .ok (modules.filter (fun m => m.2.enabled)) ∧
       selectModules modules (some "") = .ok (modules.filter (fun m => m.2.enabled))) ∧
    (∀ modules (arg : String), arg ≠ "" → lowerAscii (stripStr arg) = "all" →
       selectModules modules (some arg) = .ok (modules.filter (fun m => m.2.enabled))) ∧
    (∀ modules (arg : String) sel, arg ≠ "" → lowerAscii (stripStr arg) ≠ "all" →
       selectModules modules (some arg) = .ok sel →
       (∀ nc ∈ sel, getMap modules nc.1 = some nc.2) ∧
       (∀ n, n ∈ sel.map Prod.fst ↔ (n ∈ (splitStr ',' arg).map stripStr ∧ n ≠ ""))) ∧
    (∀ (oracle : Oracle) (force : Bool) modules (arg : String) (n : String) (s : S),
       arg ≠ "" → lowerAscii (stripStr arg) ≠ "all" →
       n ∈ (splitStr ',' arg).map stripStr → n ≠ "" → getMap modules n = none →
       exIsOk (mainModules oracle force modules (some arg) s) = false ∧
       stateOfRun (mainModules oracle force modules (some arg) s) = s) := by
  refine ⟨?_, ?_, ?_, ?_⟩
  · intro modules
    exact ⟨rfl, rfl⟩
  · intro modules arg hne hall
    simp [selectModules, hne, hall]
  · intro modules arg sel hne hall hsel
    simp only [selectModules, if_neg hne, if_neg hall] at hsel
    refine ⟨selAux_ok_bindings modules _ [] sel hsel (by simp), ?_⟩
    intro n
    rw [selAux_ok_keys modules _ [] sel hsel n]
    simp
  · intro oracle force modules arg n s hne hall hn hnne hg
    have herr : exIsOk (selectModules modules (some arg)) = false := by
      simp only [selectModules, if_neg hne, if_neg hall]
      exact selAux_unknown modules _ n hn hnne hg []
    cases hsel : selectModules modules (some arg) with
    | ok sel => rw [hsel] at herr; exact absurd herr (by simp [exIsOk])
    | error e =>
      constructor
      · simp [mainModules, hsel, exIsOk]
      · simp [mainModules, hsel, stateOfRun]

/-- Sample enabled module (no operations). -/
def mA : ModuleCfg := ⟨true, "module a", []⟩

/-- Sample disabled module (no operations). -/
def mB : ModuleCfg := ⟨false, "module b", []⟩

/-- Sample config module mapping with one enabled and one disabled
module. -/
def sampleMods : List (String × ModuleCfg) := [("a", mA), ("b", mB)]

/-- The benign oracle: commands succeed, removals and restores never
fail. -/
def okOracle : Oracle :=
  { run := fun _ _ _ => (0, "", "")
    removeErr := fun _ => none
    restoreErr := fun _ _ => none
    platform := "linux"
    osEnviron := [("PATH", "/usr/bin")]
    now := "t0" }

/-- Witness for C10: "all" selects only the enabled module, naming "b"
selects the disabled module, and an unknown name fails without running
anything. -/
theorem selectModules_semantics_witness :
    (selectModules sampleMods none = .ok (sampleMods.filter (fun m => m.2.enabled))) ∧
    ((" ALL " : String) ≠ "" ∧ lowerAscii (stripStr " ALL ") = "all" ∧
     selectModules sampleMods (some " ALL ") = .ok (sampleMods.filter (fun m => m.2.enabled))) ∧
    (("b" : String) ≠ "" ∧ lowerAscii (stripStr "b") ≠ "all" ∧
     selectModules sampleMods (some "b") = .ok [("b", mB)] ∧
     getMap sampleMods "b" = some mB ∧
     ("b" ∈ ([("b", mB)].map Prod.fst) ↔
       ("b" ∈ (splitStr ',' "b").map stripStr ∧ ("b" : String) ≠ ""))) ∧
    (("a,zzz" : String) ≠ "" ∧ lowerAscii (stripStr "a,zzz") ≠ "all" ∧
     "zzz" ∈ (splitStr ',' "a,zzz").map stripStr ∧ ("zzz" : String) ≠ "" ∧
     getMap sampleMods "zzz" = none ∧
     exIsOk (mainModules okOracle false sampleMods (some "a,zzz") baseS) = false ∧
     stateOfRun (mainModules okOracle false sampleMods (some "a,zzz") baseS) = baseS) :=
  ⟨(selectModules_semantics.1 sampleMods).1,
   ⟨by decide, by decide,
    selectModules_semantics.2.1 sampleMods " ALL " (by decide) (by decide)⟩,
   ⟨by decide, by decide, rfl,
    (selectModules_semantics.2.2.1 sampleMods "b" [("b", mB)] (by decide) (by decide) rfl).1
      ("b", mB) (by simp),
    (selectModules_semantics.2.2.1 sampleMods "b" [("b", mB)] (by decide) (by decide) rfl).2 "b"⟩,
   ⟨by decide, by decide, by decide, by decide, rfl,
    (selectModules_semantics.2.2.2 okOracle false sampleMods "a,zzz" "zzz" baseS
      (by decide) (by decide) (by decide) (by decide) rfl).1,
    (selectModules_semantics.2.2.2 okOracle false sampleMods "a,zzz" "zzz" baseS
      (by decide) (by decide) (by decide) (by decide) rfl).2⟩⟩

/-! ### Rollback lemmas (C2, C3) -/

theorem addLog_installDir (e : LogEntry) (s : S) : (addLog e s).installDir = s.installDir := rfl

theorem addLog_applied (e : LogEntry) (s : S) : (addLog e s).applied = s.applied := rfl

theorem addLog_statusBackup (e : LogEntry) (s : S) :
    (addLog e s).statusBackup = s.statusBackup := rfl

theorem addLog_fs (e : LogEntry) (s : S) : (addLog e s).fs = s.fs := rfl

/-- The list of removed paths returned by a successful rollback. -/
def rollbackRemoved : Except (String × S) (S × List Path) → List Path
  | .ok (_, r) => r
  | .error _ => []

/-- The removal loop removes exactly the strictly-under paths whose
OS-level removal does not fail, in processing order. -/
theorem rollbackPaths_removed_spec (oracle : Oracle) (instDir : Path) (ps : List Path) (s : S) :
    (rollbackPaths oracle instDir ps s).2 =
      ps.filter (fun p => decide (properUnder instDir p) && (oracle.removeErr p).isNone) := by
  induction ps generalizing s with
  | nil => rfl
  | cons p rest ih =>
    by_cases hu : properUnder instDir p
    · have hguard : ¬ (p = instDir ∨ ¬ properUnder instDir p) := by
        push_neg
        exact ⟨hu.2, hu⟩
      cases he : oracle.removeErr p with
      | some e =>
        simp only [rollbackPaths, if_neg hguard, he, List.filter_cons, ih]
        simp [hu]
      | none =>
        simp only [rollbackPaths, if_neg hguard, he, List.filter_cons, ih]
        simp [hu]
    · have hguard : p = instDir ∨ ¬ properUnder instDir p := Or.inr hu
      simp only [rollbackPaths, if_pos hguard, List.filter_cons, ih]
      simp [hu]

/-- Log entries survive the removal loop (the loop only appends). -/
theorem rollbackPaths_log_mono (oracle : Oracle) (instDir : Path) (ps : List Path) (s : S)
    (e : LogEntry) (h : e ∈ s.log) :
    e ∈ (rollbackPaths oracle instDir ps s).1.log := by
  induction ps generalizing s with
  | nil => exact h
  | cons p rest ih =>
    by_cases hguard : p = instDir ∨ ¬ properUnder instDir p
    · simp only [rollbackPaths, if_pos hguard]
      exact ih s h
    · cases he : oracle.removeErr p with
      | some msg =>
        simp only [rollbackPaths, if_neg hguard, he]
        exact ih _ (by simp [addLog, h])
      | none =>
        simp only [rollbackPaths, if_neg hguard, he]
        exact ih _ h

/-- A failed removal is logged as a skip and the loop continues. -/
theorem rollbackPaths_logs_failures (oracle : Oracle) (instDir : Path) (ps : List Path)
    (s : S) (p : Path) (e : String) (hp : p ∈ ps) (hu : properUnder instDir p)
    (he : oracle.removeErr p = some e) :
    logE "ERROR" ("Rollback skipped " ++ pathStr p ++ ": " ++ e) ∈
      (rollbackPaths oracle instDir ps s).1.log := by
  induction ps generalizing s with
  | nil => simp at hp
  | cons p0 rest ih =>
    rcases List.mem_cons.mp hp with rfl | hr
    · have hguard : ¬ (p = instDir ∨ ¬ properUnder instDir p) := by
        push_neg
        exact ⟨hu.2, hu⟩
      simp only [rollbackPaths, if_neg hguard, he]
      exact rollbackPaths_log_mono _ _ _ _ _ (by simp [addLog])
    · by_cases hguard : p0 = instDir ∨ ¬ properUnder instDir p0
      · simp only [rollbackPaths, if_pos hguard]
        exact ih s hr
      · cases he0 : oracle.removeErr p0 with
        | some msg =>
          simp only [rollbackPaths, if_neg hguard, he0]
          exact ih _ hr
        | none =>
          simp only [rollbackPaths, if_neg hguard, he0]
          exact ih _ hr

/-- A successful rollback removed exactly the eligible tracked paths, in
reverse insertion order. -/
theorem rollback_removed_eq (oracle : Oracle) (s s2 : S) (removed : List Path)
    (h : rollback oracle s = .ok (s2, removed)) :
    removed = s.applied.reverse.filter
      (fun p => decide (properUnder s.installDir p) && (oracle.removeErr p).isNone) := by
  simp only [rollback] at h
  repeat' split at h
  all_goals first
    | exact Except.noConfusion h
    | (injection h with h
       injection h with h1 h2
       subst h2
       exact rollbackPaths_removed_spec oracle s.installDir s.applied.reverse _)

/-! ### C3: tracking invariants and rollback order -/

/-- C3: recording preserves the strictly-under invariant of
`applied_paths` (a newly recorded path is itself strictly under the
install dir); recording an already-present path leaves `applied_paths`
unchanged; and a successful rollback removes tracked paths in reverse
insertion order (a sublist of the reversed tracked list — exactly the
eligible ones when no OS failure intervenes), never removing the install
dir itself or any path outside it. -/
theorem applied_paths_invariants :
    (∀ (s : S) (q : Path), (∀ p ∈ s.applied, properUnder s.installDir p) →
       ∀ p ∈ (recordCreated q s).applied, properUnder s.installDir p) ∧
    (∀ (s : S) (q : Path), q ∈ s.applied → recordCreated q s = s) ∧
    (∀ (oracle : Oracle) (s : S), exIsOk (rollback oracle s) = true →
       (rollbackRemoved (rollback oracle s)).Sublist s.applied.reverse ∧
       s.installDir ∉ rollbackRemoved (rollback oracle s) ∧
       ∀ p ∈ rollbackRemoved (rollback oracle s), properUnder s.installDir p) ∧
    (∀ (oracle : Oracle) (s : S), exIsOk (rollback oracle s) = true →
       rollbackRemoved (rollback oracle s) = s.applied.reverse.filter
         (fun p => decide (properUnder s.installDir p) && (oracle.removeErr p).isNone)) := by
  have hchar : ∀ (oracle : Oracle) (s : S), exIsOk (rollback oracle s) = true →
      rollbackRemoved (rollback oracle s) = s.applied.reverse.filter
        (fun p => decide (properUnder s.installDir p) && (oracle.removeErr p).isNone) := by
    intro oracle s hok
    cases hr : rollback oracle s with
    | error e => rw [hr] at hok; exact absurd hok (by simp [exIsOk])
    | ok pr =>
      obtain ⟨s2, removed⟩ := pr
      simp only [rollbackRemoved]
      exact rollback_removed_eq oracle s s2 removed hr
  refine ⟨?_, ?_, ?_, hchar⟩
  · intro s q hInv p hp
    rcases mem_recordCreated_applied q p s hp with h | ⟨rfl, hu⟩
    · exact hInv p h
    · exact hu
  · intro s q hq
    exact recordCreated_idem q s hq
  · intro oracle s hok
    rw [hchar oracle s hok]
    refine ⟨List.filter_sublist _, ?_, ?_⟩
    · intro hmem
      have := (List.mem_filter.mp hmem).2
      simp only [Bool.and_eq_true, decide_eq_true_eq] at this
      exact this.1.2 rfl
    · intro p hmem
      have := (List.mem_filter.mp hmem).2
      simp only [Bool.and_eq_true, decide_eq_true_eq] at this
      exact this.1

/-- State with two tracked creations under the install dir. -/
def rbS : S :=
  { baseS with
      applied := [wInstallDir ++ ["x"], wInstallDir ++ ["y"]]
      fs := baseS.fs ++ [(wInstallDir ++ ["x"], Entry.file (FileContent.raw "1")),
        (wInstallDir ++ ["y"], Entry.file (FileContent.raw "2"))] }

/-- Witness for C3 at a concrete tracker state. -/
theorem applied_paths_invariants_witness :
    properUnder rbS.installDir (wInstallDir ++ ["z"]) ∧
    (wInstallDir ++ ["x"]) ∈ rbS.applied ∧
    recordCreated (wInstallDir ++ ["x"]) rbS = rbS ∧
    exIsOk (rollback okOracle rbS) = true ∧
    rbS.installDir ∉ rollbackRemoved (rollback okOracle rbS) ∧
    rollbackRemoved (rollback okOracle rbS) = rbS.applied.reverse.filter
      (fun p => decide (properUnder rbS.installDir p) && (okOracle.removeErr p).isNone) :=
  ⟨applied_paths_invariants.1 rbS (wInstallDir ++ ["z"]) (by decide)
     (wInstallDir ++ ["z"]) (by decide),
   by decide,
   applied_paths_invariants.2.1 rbS (wInstallDir ++ ["x"]) (by decide),
   rfl,
   (applied_paths_invariants.2.2.1 okOracle rbS rfl).2.1,
   applied_paths_invariants.2.2.2 okOracle rbS rfl⟩

/-! ### C2: rollback error handling -/

/-- State with a captured status backup present on disk. -/
def bakS : S :=
  { baseS with
      statusBackup := some (wInstallDir ++ ["installed_modules.json.bak"])
      fs := baseS.fs ++
        [(wInstallDir ++ ["installed_modules.json.bak"], Entry.file (FileContent.raw "old-status"))] }

/-- The oracle whose backup-restore copy fails. -/
def badRestoreOracle : Oracle :=
  { okOracle with restoreErr := fun _ _ => some "EPERM" }

/-- C2 counterexample: `rollback` does raise — the `shutil.copy2` that
restores the status backup sits outside the removal loop's try/except, so
a failure there propagates out of `rollback`. -/
theorem rollback_never_raises_counterexample :
    rollback badRestoreOracle bakS =
      .error ("EPERM", addLog (logE "WARNING" "Rolling back installation") bakS) := rfl

/-- The removal loop never touches the captured backup path field. -/
theorem rollbackPaths_statusBackup (oracle : Oracle) (instDir : Path) (ps : List Path) (s : S) :
    (rollbackPaths oracle instDir ps s).1.statusBackup = s.statusBackup := by
  induction ps generalizing s with
  | nil => rfl
  | cons p rest ih =>
    by_cases hguard : p = instDir ∨ ¬ properUnder instDir p
    · simp only [rollbackPaths, if_pos hguard]
      exact ih s
    · cases he : oracle.removeErr p with
      | some e =>
        simp only [rollbackPaths, if_neg hguard, he]
        rw [ih, addLog_statusBackup]
      | none =>
        simp only [rollbackPaths, if_neg hguard, he]
        rw [ih]

/-- C2 (amended): failures while deleting tracked paths are logged and
swallowed and the loop continues with the remaining paths (it removes
exactly the eligible paths whose removal succeeds, and logs a skip entry
for each eligible path whose removal fails); rollback returns normally
whenever the final backup-restore copy cannot fail; only a failure while
restoring the status backup propagates. -/
theorem rollback_best_effort :
    (∀ (oracle : Oracle) (instDir : Path) (ps : List Path) (s : S),
       (rollbackPaths oracle instDir ps s).2 =
         ps.filter (fun p => decide (properUnder instDir p) && (oracle.removeErr p).isNone)) ∧
    (∀ (oracle : Oracle) (instDir : Path) (ps : List Path) (s : S) (p : Path) (e : String),
       p ∈ ps → properUnder instDir p → oracle.removeErr p = some e →
       logE "ERROR" ("Rollback skipped " ++ pathStr p ++ ": " ++ e) ∈
         (rollbackPaths oracle instDir ps s).1.log) ∧
    (∀ (oracle : Oracle) (s : S),
       (∀ b d, oracle.restoreErr b d = none) →
       (∀ b, s.statusBackup = some b →
          getMap (rollbackPaths oracle s.installDir s.applied.reverse
              (addLog (logE "WARNING" "Rolling back installation") s)).1.fs b ≠
            some Entry.dir) →
       exIsOk (rollback oracle s) = true) := by
  refine ⟨rollbackPaths_removed_spec, rollbackPaths_logs_failures, ?_⟩
  intro oracle s hre hbk
  simp only [rollback, exIsOk, addLog_installDir, addLog_applied]
  cases hb : (rollbackPaths oracle s.installDir s.applied.reverse
      (addLog (logE "WARNING" "Rolling back installation") s)).1.statusBackup with
  | none => simp [hb]
  | some b =>
    have hbs : s.statusBackup = some b := by
      have heqb : (rollbackPaths oracle s.installDir s.applied.reverse
          (addLog (logE "WARNING" "Rolling back installation") s)).1.statusBackup =
          s.statusBackup :=
        rollbackPaths_statusBackup oracle s.installDir s.applied.reverse _
      rw [heqb] at hb
      exact hb
    cases hg : getMap (rollbackPaths oracle s.installDir s.applied.reverse
        (addLog (logE "WARNING" "Rolling back installation") s)).1.fs b with
    | none => simp [hb, hg]
    | some entry =>
      cases entry with
      | dir => exact absurd hg (hbk b hbs)
      | file c => simp [hb, hg, hre]

/-- The oracle whose removal of one tracked path fails. -/
def halfBadOracle : Oracle :=
  { okOracle with
      removeErr := fun p => if p = wInstallDir ++ ["x"] then some "EBUSY" else none }

/-- Witness for C2 (amended): with one failing removal, the loop still
removes the other path, logs the skip, and rollback returns normally. -/
theorem rollback_best_effort_witness :
    ((rollbackPaths halfBadOracle rbS.installDir rbS.applied.reverse rbS).2 =
       rbS.applied.reverse.filter
         (fun p => decide (properUnder rbS.installDir p) && (halfBadOracle.removeErr p).isNone)) ∧
    ((wInstallDir ++ ["x"]) ∈ rbS.applied.reverse ∧
     properUnder rbS.installDir (wInstallDir ++ ["x"]) ∧
     halfBadOracle.removeErr (wInstallDir ++ ["x"]) = some "EBUSY" ∧
     logE "ERROR" ("Rollback skipped " ++ pathStr (wInstallDir ++ ["x"]) ++ ": " ++ "EBUSY") ∈
       (rollbackPaths halfBadOracle rbS.installDir rbS.applied.reverse rbS).1.log) ∧
    exIsOk (rollback halfBadOracle rbS) = true :=
  ⟨rollback_best_effort.1 halfBadOracle rbS.installDir rbS.applied.reverse rbS,
   ⟨by decide, by decide, rfl,
    rollback_best_effort.2.1 halfBadOracle rbS.installDir rbS.applied.reverse rbS
      (wInstallDir ++ ["x"]) "EBUSY" (by decide) (by decide) rfl⟩,
   rollback_best_effort.2.2 halfBadOracle rbS (fun _ _ => rfl)
     (fun _ hb => Option.noConfusion hb)⟩

/-! ### Orchestration lemmas (C1, C5) -/

theorem addPrint_applied (l : String) (s : S) : (addPrint l s).applied = s.applied := rfl

theorem recordCreated_applied_extends2 (p : Path) (s t : S) (h : t.applied = s.applied) :
    s.applied <+: (recordCreated p t).applied := h ▸ recordCreated_applied_extends p t

theorem opCopyDir_applied (source target : Path) (s : S) :
    s.applied <+: (stateOfOp (opCopyDir source target s)).applied := by
  unfold opCopyDir
  cases hmk : mkdirP s.fs (targetPath target s).dropLast with
  | error e =>
    simp only [hmk, stateOfOp]
    exact List.prefix_refl _
  | ok fs1 =>
    cases hg : getMap fs1 (sourcePath source s) with
    | none =>
      simp only [hmk, hg, stateOfOp]
      exact List.prefix_refl _
    | some entry =>
      cases entry with
      | file c =>
        simp only [hmk, hg, stateOfOp]
        exact List.prefix_refl _
      | dir =>
        cases hex : (getMap s.fs (targetPath target s)).isSome with
        | true =>
          simp only [hmk, hg, hex, stateOfOp, addLog_applied, if_true]
          exact List.prefix_refl _
        | false =>
          simp only [hmk, hg, hex, stateOfOp, addLog_applied, Bool.false_eq_true, if_false]
          exact recordCreated_applied_extends2 _ _ _ rfl

theorem opMergeDir_applied (source : Path) (s : S) :
    s.applied <+: (stateOfOp (opMergeDir source s)).applied := by
  unfold opMergeDir
  cases hg : getMap s.fs (sourcePath source s) with
  | none =>
    simp only [hg, stateOfOp]
    exact List.prefix_refl _
  | some entry =>
    cases entry with
    | file c =>
      simp only [hg, stateOfOp]
      exact List.prefix_refl _
    | dir =>
      cases hm : mergeDirSubdirs s.force s.installDir s.fs (childDirs s.fs (sourcePath source s))
          s.fs [] [] with
      | error pr =>
        obtain ⟨e, fs2⟩ := pr
        simp only [hg, hm, stateOfOp]
        exact List.prefix_refl _
      | ok tr =>
        obtain ⟨fs2, merged, skipped⟩ := tr
        cases hsk : skipped.isEmpty with
        | true =>
          simp only [hg, hm, hsk, stateOfOp, addLog_applied, if_true]
          exact List.prefix_refl _
        | false =>
          simp only [hg, hm, hsk, stateOfOp, addLog_applied, addPrint_applied,
            Bool.false_eq_true, if_false]
          exact List.prefix_refl _

theorem opCopyFile_applied (source target : Path) (s : S) :
    s.applied <+: (stateOfOp (opCopyFile source target s)).applied := by
  unfold opCopyFile
  cases hsk : ((getMap s.fs (targetPath target s)).isSome && !s.force) with
  | true =>
    simp only [hsk, stateOfOp, addLog_applied, addPrint_applied, if_true]
    exact List.prefix_refl _
  | false =>
    simp only [hsk, Bool.false_eq_true, if_false]
    cases hmk : mkdirP s.fs (targetPath target s).dropLast with
    | error e =>
      simp only [hmk, stateOfOp]
      exact List.prefix_refl _
    | ok fs1 =>
      cases hg : getMap fs1 (sourcePath source s) with
      | none =>
        simp only [hmk, hg, stateOfOp]
        exact List.prefix_refl _
      | some entry =>
        cases entry with
        | dir =>
          simp only [hmk, hg, stateOfOp]
          exact List.prefix_refl _
        | file c =>
          cases hex : (getMap s.fs (targetPath target s)).isSome with
          | true =>
            simp only [hmk, hg, hex, stateOfOp, addLog_applied, if_true]
            exact List.prefix_refl _
          | false =>
            simp only [hmk, hg, hex, stateOfOp, addLog_applied, Bool.false_eq_true, if_false]
            exact recordCreated_applied_extends2 _ _ _ rfl

theorem opMergeJson_applied (source target : Path) (mk : Option String) (s : S) :
    s.applied <+: (stateOfOp (opMergeJson source target mk s)).applied := by
  unfold opMergeJson
  cases hg : getMap s.fs (sourcePath source s) with
  | none =>
    simp only [hg, stateOfOp]
    exact List.prefix_refl _
  | some entry =>
    match entry with
    | Entry.dir =>
      simp only [hg, stateOfOp]
      exact List.prefix_refl _
    | Entry.file (FileContent.raw t) =>
      simp only [hg, stateOfOp]
      exact List.prefix_refl _
    | Entry.file (FileContent.jsonC j) =>
      cases hmk : mkdirP s.fs (targetPath target s).dropLast with
      | error e =>
        simp only [hg, hmk, stateOfOp]
        exact List.prefix_refl _
      | ok fs1 =>
        cases hd : getMap fs1 (targetPath target s) with
        | none =>
          cases hmd : mergeDoc j mk (JsonVal.obj []) with
          | error e =>
            simp only [hg, hmk, hd, hmd, stateOfOp]
            exact recordCreated_applied_extends2 _ _ _ rfl
          | ok m =>
            simp only [hg, hmk, hd, hmd, stateOfOp, addLog_applied]
            exact recordCreated_applied_extends2 _ _ _ rfl
        | some dentry =>
          match dentry with
          | Entry.dir =>
            simp only [hg, hmk, hd, stateOfOp]
            exact List.prefix_refl _
          | Entry.file (FileContent.raw t) =>
            simp only [hg, hmk, hd, stateOfOp]
            exact List.prefix_refl _
          | Entry.file (FileContent.jsonC d) =>
            cases hmd : mergeDoc j mk d with
            | error e =>
              simp only [hg, hmk, hd, hmd, stateOfOp]
              exact List.prefix_refl _
            | ok m =>
              simp only [hg, hmk, hd, hmd, stateOfOp, addLog_applied]
              exact List.prefix_refl _

theorem opRunCommand_applied (command : String) (envDecl : List (String × String))
    (oracle : Oracle) (s : S) :
    s.applied <+: (stateOfOp (opRunCommand command envDecl oracle s)).applied := by
  unfold opRunCommand
  by_cases hrc : (oracle.run (substCommand oracle command) s.configDir
      (buildCmdEnv oracle.osEnviron envDecl s.installDir)).1 = 0
  · simp only [hrc, if_pos, stateOfOp, addLog_applied]
    exact List.prefix_refl _
  · simp only [if_neg hrc, stateOfOp, addLog_applied]
    exact List.prefix_refl _

/-- Operations only ever extend the tracker (`applied_paths` accumulates;
nothing removes entries during execution). -/
theorem runOp_applied (oracle : Oracle) (op : Op) (s : S) :
    s.applied <+: (stateOfOp (runOp oracle op s)).applied := by
  cases op with
  | copyDir source target => exact opCopyDir_applied source target s
  | copyFile source target => exact opCopyFile_applied source target s
  | mergeDir source => exact opMergeDir_applied source s
  | mergeJson source target mk => exact opMergeJson_applied source target mk s
  | runCommand cmd env => exact opRunCommand_applied cmd env oracle s
  | unknown t => exact List.prefix_refl _

/-- The state carried by an `execOps` result. -/
def stateOfExec : Except (List OpOutcome × S) (List OpOutcome × S) → S
  | .ok (_, s) => s
  | .error (_, s) => s

theorem execOps_applied (oracle : Oracle) (name : String) (ops : List Op) :
    ∀ (s : S) (acc : List OpOutcome),
      s.applied <+: (stateOfExec (execOps oracle name ops s acc)).applied := by
  induction ops with
  | nil => intro s acc; exact List.prefix_refl _
  | cons op rest ih =>
    intro s acc
    cases hro : runOp oracle op s with
    | ok s1 =>
      have h1 := runOp_applied oracle op s
      rw [hro] at h1
      simp only [stateOfOp] at h1
      simp only [execOps, hro]
      exact h1.trans (ih s1 _)
    | error es =>
      obtain ⟨e, s1⟩ := es
      have h1 := runOp_applied oracle op s
      rw [hro] at h1
      simp only [stateOfOp] at h1
      simp only [execOps, hro, stateOfExec, addLog_applied]
      exact h1

/-- The state carried by an `executeModule` result. -/
def stateOfMod : Except (ModuleRes × S) (ModuleRes × S) → S
  | .ok (_, s) => s
  | .error (_, s) => s

theorem executeModule_applied (oracle : Oracle) (name : String) (cfg : ModuleCfg) (s : S) :
    s.applied <+: (stateOfMod (executeModule oracle name cfg s)).applied := by
  have h := execOps_applied oracle name cfg.operations s []
  unfold executeModule
  cases hex : execOps oracle name cfg.operations s [] with
  | ok pr =>
    obtain ⟨outs, s1⟩ := pr
    rw [hex] at h
    exact h
  | error pr =>
    obtain ⟨outs, s1⟩ := pr
    rw [hex] at h
    exact h

/-! ### C5: ordered execution, first-failure abort, force=false rollback -/

/-- C5: operations run in declared order and the first failing operation
aborts the module's remaining operations (the outcome list is the
successful prefix plus the failed outcome, and the result does not depend
on the operations after the failure); a successful module's results and
state feed the next module; and with force false a module failure makes
the run roll back — removing exactly the eligible paths of the tracker at
failure time, which extends everything tracked before the module started —
return exit code 1, and run no further modules. -/
theorem module_failure_aborts_run :
    (∀ (oracle : Oracle) (name : String) (pre : List Op) (bad : Op) (post : List Op)
       (s : S) (acc outs : List OpOutcome) (s1 : S) (e : String) (s2 : S),
       execOps oracle name pre s acc = .ok (outs, s1) →
       runOp oracle bad s1 = .error (e, s2) →
       execOps oracle name (pre ++ bad :: post) s acc =
         .error (outs ++ [⟨bad.typeStr, "failed", some e⟩],
           addLog (logE "ERROR"
             ("Module " ++ name ++ " failed on " ++ bad.typeStr ++ ": " ++ e)) s2)) ∧
    (∀ (oracle : Oracle) (force : Bool) (name : String) (cfg : ModuleCfg)
       (rest : List (String × ModuleCfg)) (s : S) (acc : List ModuleRes)
       (r : ModuleRes) (s1 : S),
       executeModule oracle name cfg s = .ok (r, s1) →
       runModulesAux oracle force ((name, cfg) :: rest) s acc =
         runModulesAux oracle force rest s1 (acc ++ [r])) ∧
    (∀ (oracle : Oracle) (name : String) (cfg : ModuleCfg)
       (rest : List (String × ModuleCfg)) (s : S) (acc : List ModuleRes)
       (r : ModuleRes) (s1 s2 : S) (removed : List Path),
       executeModule oracle name cfg s = .error (r, s1) →
       rollback oracle s1 = .ok (s2, removed) →
       runModulesAux oracle false ((name, cfg) :: rest) s acc =
         .ok ⟨1, acc, s2, true⟩ ∧
       s.applied <+: s1.applied ∧
       removed = s1.applied.reverse.filter
         (fun p => decide (properUnder s1.installDir p) && (oracle.removeErr p).isNone)) := by
  refine ⟨?_, ?_, ?_⟩
  · intro oracle name pre
    induction pre with
    | nil =>
      intro bad post s acc outs s1 e s2 hpre hbad
      simp only [execOps, Except.ok.injEq] at hpre
      injection hpre with h1 h2
      subst h1; subst h2
      simp only [List.nil_append, execOps, hbad]
    | cons op pre ih =>
      intro bad post s acc outs s1 e s2 hpre hbad
      cases hro : runOp oracle op s with
      | ok s0 =>
        simp only [execOps, hro] at hpre
        simp only [List.cons_append, execOps, hro]
        exact ih bad post s0 _ outs s1 e s2 hpre hbad
      | error es =>
        obtain ⟨e0, s0⟩ := es
        simp only [execOps, hro] at hpre
        exact Except.noConfusion hpre
  · intro oracle force name cfg rest s acc r s1 hok
    simp only [runModulesAux, hok]
  · intro oracle name cfg rest s acc r s1 s2 removed hfail hrb
    refine ⟨?_, ?_, ?_⟩
    · simp only [runModulesAux, hfail, Bool.false_eq_true, if_false, hrb]
    · have h := executeModule_applied oracle name cfg s
      rw [hfail] at h
      exact h
    · exact rollback_removed_eq oracle s1 s2 removed hrb

/-- A module whose single operation fails (unknown operation type). -/
def mFail : ModuleCfg := ⟨true, "failing module", [Op.unknown "bogus"]⟩

/-- The state after `mFail` fails under the name `f` from `baseS`. -/
def failS1 : S :=
  addLog (logE "ERROR" "Module f failed on bogus: Unknown operation type: bogus") baseS

/-- The state after rolling `failS1` back (nothing tracked, no backup). -/
def failS2 : S :=
  addLog (logE "INFO" "Rollback completed")
    (addLog (logE "WARNING" "Rolling back installation") failS1)

/-- Witness for C5: a one-operation failing module after an empty prefix,
a successful module step, and the force=false abort with exit code 1. -/
theorem module_failure_aborts_run_witness :
    (execOps okOracle "f" [] baseS [] = .ok ([], baseS) ∧
     runOp okOracle (Op.unknown "bogus") baseS =
       .error ("Unknown operation type: bogus", baseS) ∧
     execOps okOracle "f" ([] ++ Op.unknown "bogus" :: [Op.copyFile ["a"] ["b"]]) baseS [] =
       .error ([⟨"bogus", "failed", some "Unknown operation type: bogus"⟩], failS1)) ∧
    (executeModule okOracle "a" mA baseS = .ok (⟨"a", "success", [], "t0"⟩, baseS) ∧
     runModulesAux okOracle false [("a", mA), ("f", mFail)] baseS [] =
       runModulesAux okOracle false [("f", mFail)] baseS [⟨"a", "success", [], "t0"⟩]) ∧
    (executeModule okOracle "f" mFail baseS =
       .error (⟨"f", "failed", [⟨"bogus", "failed", some "Unknown operation type: bogus"⟩], "t0"⟩,
         failS1) ∧
     rollback okOracle failS1 = .ok (failS2, []) ∧
     runModulesAux okOracle false [("f", mFail)] baseS [⟨"a", "success", [], "t0"⟩] =
       .ok ⟨1, [⟨"a", "success", [], "t0"⟩], failS2, true⟩ ∧
     baseS.applied <+: failS1.applied) :=
  ⟨⟨rfl, rfl,
    module_failure_aborts_run.1 okOracle "f" [] (Op.unknown "bogus")
      [Op.copyFile ["a"] ["b"]] baseS [] [] baseS "Unknown operation type: bogus" baseS
      rfl rfl⟩,
   ⟨rfl,
    module_failure_aborts_run.2.1 okOracle false "a" mA [("f", mFail)] baseS []
      ⟨"a", "success", [], "t0"⟩ baseS rfl⟩,
   ⟨rfl, rfl,
    (module_failure_aborts_run.2.2 okOracle "f" mFail [] baseS
      [⟨"a", "success", [], "t0"⟩]
      ⟨"f", "failed", [⟨"bogus", "failed", some "Unknown operation type: bogus"⟩], "t0"⟩
      failS1 failS2 [] rfl rfl).1,
    (module_failure_aborts_run.2.2 okOracle "f" mFail [] baseS
      [⟨"a", "success", [], "t0"⟩]
      ⟨"f", "failed", [⟨"bogus", "failed", some "Unknown operation type: bogus"⟩], "t0"⟩
      failS1 failS2 [] rfl rfl).2.1⟩⟩

/-! ### C1: behaviour of a module failure under force=true -/

/-- The results list carried by a run outcome. -/
def runResultsOf : Except (String × S) RunOutcome → List ModuleRes
  | .ok o => o.results
  | .error _ => []

/-- A module that would copy a config file into the install dir. -/
def mCopyB : ModuleCfg := ⟨true, "copying module", [Op.copyFile ["src.txt"] ["dst.txt"]]⟩

/-- `baseS` with the source file `mCopyB` would copy. -/
def cxS : S :=
  { baseS with fs := baseS.fs ++
      [(wConfigDir ++ ["src.txt"], Entry.file (FileContent.raw "payload"))] }

/-- C1 counterexample: with force true and module `f` failing, the run
does not continue to the next selected module `b` — the loop `break`s, so
`b` appears nowhere in the results and its copy never happens. -/
theorem force_continue_counterexample :
    exIsOk (runModules okOracle true [("f", mFail), ("b", mCopyB)] cxS) = true ∧
    (runResultsOf (runModules okOracle true [("f", mFail), ("b", mCopyB)] cxS)).map
        (fun r => r.module) = ["f"] ∧
    "b" ∉ (runResultsOf (runModules okOracle true [("f", mFail), ("b", mCopyB)] cxS)).map
        (fun r => r.module) ∧
    getMap (stateOfRun (runModules okOracle true [("f", mFail), ("b", mCopyB)] cxS)).fs
        (wInstallDir ++ ["dst.txt"]) = none := by
  refine ⟨rfl, by decide, by decide, rfl⟩

/-- C1 (amended): when force is true and a module fails, rollback fires
(reverting everything applied in the run so far), a stub failed result for
the module is recorded, and the loop breaks — the remaining selected
modules never run (the outcome does not depend on them) — after which the
status file is written and the run exits 0. -/
theorem force_true_failure_breaks (oracle : Oracle) (name : String) (cfg : ModuleCfg)
    (rest : List (String × ModuleCfg)) (s : S) (acc : List ModuleRes)
    (r : ModuleRes) (s1 s2 : S) (removed : List Path) (s3 : S)
    (hfail : executeModule oracle name cfg s = .error (r, s1))
    (hrb : rollback oracle s1 = .ok (s2, removed))
    (hws : writeStatus oracle (acc ++ [⟨name, "failed", [], oracle.now⟩]) s2 = .ok s3) :
    runModulesAux oracle true ((name, cfg) :: rest) s acc =
      .ok ⟨0, acc ++ [⟨name, "failed", [], oracle.now⟩], s3, true⟩ := by
  simp only [runModulesAux, hfail, hrb, hws, if_true]

/-- The stub result recorded for the failed module `f`. -/
def stubF : ModuleRes := ⟨"f", "failed", [], "t0"⟩

/-- The state after the force=true failure path writes the status file. -/
def failS3 : S :=
  { failS2 with fs := setMap failS2.fs failS2.statusFile (Entry.file (FileContent.jsonC
      (JsonVal.obj [("installed_at", JsonVal.str "t0"),
        ("modules", JsonVal.obj [("f", moduleResJson stubF)])]))) }

/-- Witness for C1 (amended) at the concrete failing module. -/
theorem force_true_failure_breaks_witness :
    executeModule okOracle "f" mFail baseS =
      .error (⟨"f", "failed", [⟨"bogus", "failed", some "Unknown operation type: bogus"⟩], "t0"⟩,
        failS1) ∧
    rollback okOracle failS1 = .ok (failS2, []) ∧
    writeStatus okOracle ([] ++ [⟨"f", "failed", [], okOracle.now⟩]) failS2 = .ok failS3 ∧
    runModulesAux okOracle true [("f", mFail), ("b", mCopyB)] baseS [] =
      .ok ⟨0, [] ++ [⟨"f", "failed", [], okOracle.now⟩], failS3, true⟩ :=
  ⟨rfl, rfl, rfl,
   force_true_failure_breaks okOracle "f" mFail [("b", mCopyB)] baseS []
     ⟨"f", "failed", [⟨"bogus", "failed", some "Unknown operation type: bogus"⟩], "t0"⟩
     failS1 failS2 [] failS3 rfl rfl rfl⟩

end Install
